import Mathlib

/-!
Engine: keyboard translation, coordinate conversion and multi-view orchestration.

A shallow embedding of `src/KeyboardMap.cpp`, `src/Window.h` and `main.cpp`.

* Machine integers are natural numbers or integers with explicit reductions
  modulo `2 ^ w` at the C++ conversions.
* `enum` values of the host toolkit (`Qt::Key_*`, `Qt::*Modifier`) and of the
  rendering engine (`vsg::KEY_*`, `vsg::MODKEY_*`) are the numeric values of the
  public headers of those libraries.
* `ref_ptr`/raw pointers that the code dereferences unconditionally are
  modelled by their pointees; nullable handles are `Option`s.
* Values of type `double` are those of IEEE 754 binary64, the type `Double`: every
  operation returns its exact result rounded to nearest, ties to even.
-/

/-! ## Host toolkit constants (`Qt::Key`, `Qt::KeyboardModifier`) -/

namespace Qt

def Key_Space : Nat := 0x20
def Key_QuoteLeft : Nat := 0x60
def Key_Comma : Nat := 0x2c
def Key_Minus : Nat := 0x2d
def Key_Period : Nat := 0x2e
def Key_Slash : Nat := 0x2f
def Key_Semicolon : Nat := 0x3b
def Key_Equal : Nat := 0x3d
def Key_BracketLeft : Nat := 0x5b
def Key_Backslash : Nat := 0x5c
def Key_BracketRight : Nat := 0x5d
def Key_Escape : Nat := 0x01000000
def Key_Tab : Nat := 0x01000001
def Key_Backtab : Nat := 0x01000002
def Key_Backspace : Nat := 0x01000003
def Key_Return : Nat := 0x01000004
def Key_Enter : Nat := 0x01000005
def Key_Insert : Nat := 0x01000006
def Key_Delete : Nat := 0x01000007
def Key_Pause : Nat := 0x01000008
def Key_Print : Nat := 0x01000009
def Key_SysReq : Nat := 0x0100000a
def Key_Clear : Nat := 0x0100000b
def Key_Home : Nat := 0x01000010
def Key_End : Nat := 0x01000011
def Key_Left : Nat := 0x01000012
def Key_Up : Nat := 0x01000013
def Key_Right : Nat := 0x01000014
def Key_Down : Nat := 0x01000015
def Key_PageUp : Nat := 0x01000016
def Key_PageDown : Nat := 0x01000017
def Key_Shift : Nat := 0x01000020
def Key_Control : Nat := 0x01000021
def Key_Meta : Nat := 0x01000022
def Key_Alt : Nat := 0x01000023
def Key_CapsLock : Nat := 0x01000024
def Key_NumLock : Nat := 0x01000025
def Key_ScrollLock : Nat := 0x01000026
def Key_F1 : Nat := 0x01000030
def Key_F2 : Nat := 0x01000031
def Key_F3 : Nat := 0x01000032
def Key_F4 : Nat := 0x01000033
def Key_F5 : Nat := 0x01000034
def Key_F6 : Nat := 0x01000035
def Key_F7 : Nat := 0x01000036
def Key_F8 : Nat := 0x01000037
def Key_F9 : Nat := 0x01000038
def Key_F10 : Nat := 0x01000039
def Key_F11 : Nat := 0x0100003a
def Key_F12 : Nat := 0x0100003b
def Key_F13 : Nat := 0x0100003c
def Key_F14 : Nat := 0x0100003d
def Key_F15 : Nat := 0x0100003e
def Key_F16 : Nat := 0x0100003f
def Key_F17 : Nat := 0x01000040
def Key_F18 : Nat := 0x01000041
def Key_F19 : Nat := 0x01000042
def Key_F20 : Nat := 0x01000043
def Key_F21 : Nat := 0x01000044
def Key_F22 : Nat := 0x01000045
def Key_F23 : Nat := 0x01000046
def Key_F24 : Nat := 0x01000047
def Key_Super_L : Nat := 0x01000053
def Key_Super_R : Nat := 0x01000054
def Key_Menu : Nat := 0x01000055
def Key_Help : Nat := 0x01000058
def Key_Back : Nat := 0x01000061
def Key_Select : Nat := 0x01010000
def Key_Cancel : Nat := 0x01020001
def Key_Execute : Nat := 0x01020003

def ShiftModifier : Nat := 0x02000000
def ControlModifier : Nat := 0x04000000
def AltModifier : Nat := 0x08000000
def MetaModifier : Nat := 0x10000000
def KeypadModifier : Nat := 0x20000000
def GroupSwitchModifier : Nat := 0x40000000

end Qt

/-! ## Engine constants (`vsg::KeySymbol`, `vsg::KeyModifier`, both `uint16_t` enums) -/

namespace vsg

/-- Values of the `uint16_t` enumeration `vsg::KeySymbol`. -/
abbrev KeySymbol := Nat

/-- Values of the `uint16_t` enumeration `vsg::KeyModifier`. -/
abbrev KeyModifier := Nat

def KEY_Undefined : KeySymbol := 0x0
def KEY_Space : KeySymbol := 0x20
def KEY_Exclaim : KeySymbol := 0x21
def KEY_Quotedbl : KeySymbol := 0x22
def KEY_Hash : KeySymbol := 0x23
def KEY_Dollar : KeySymbol := 0x24
def KEY_Ampersand : KeySymbol := 0x26
def KEY_Quote : KeySymbol := 0x27
def KEY_Leftparen : KeySymbol := 0x28
def KEY_Rightparen : KeySymbol := 0x29
def KEY_Asterisk : KeySymbol := 0x2A
def KEY_Plus : KeySymbol := 0x2B
def KEY_Comma : KeySymbol := 0x2C
def KEY_Minus : KeySymbol := 0x2D
def KEY_Period : KeySymbol := 0x2E
def KEY_Slash : KeySymbol := 0x2F
def KEY_Colon : KeySymbol := 0x3A
def KEY_Semicolon : KeySymbol := 0x3B
def KEY_Less : KeySymbol := 0x3C
def KEY_Equals : KeySymbol := 0x3D
def KEY_Greater : KeySymbol := 0x3E
def KEY_Question : KeySymbol := 0x3F
def KEY_At : KeySymbol := 0x40
def KEY_Leftbracket : KeySymbol := 0x5B
def KEY_Backslash : KeySymbol := 0x5C
def KEY_Rightbracket : KeySymbol := 0x5D
def KEY_Caret : KeySymbol := 0x5E
def KEY_Underscore : KeySymbol := 0x5F
def KEY_Backquote : KeySymbol := 0x60
def KEY_Verticalslash : KeySymbol := 0x7C
def KEY_BackSpace : KeySymbol := 0xFF08
def KEY_Tab : KeySymbol := 0xFF09
def KEY_Clear : KeySymbol := 0xFF0B
def KEY_Return : KeySymbol := 0xFF0D
def KEY_Pause : KeySymbol := 0xFF13
def KEY_Scroll_Lock : KeySymbol := 0xFF14
def KEY_Escape : KeySymbol := 0xFF1B
def KEY_Delete : KeySymbol := 0xFFFF
def KEY_Home : KeySymbol := 0xFF50
def KEY_Left : KeySymbol := 0xFF51
def KEY_Up : KeySymbol := 0xFF52
def KEY_Right : KeySymbol := 0xFF53
def KEY_Down : KeySymbol := 0xFF54
def KEY_Prior : KeySymbol := 0xFF55
def KEY_Page_Up : KeySymbol := 0xFF55
def KEY_Next : KeySymbol := 0xFF56
def KEY_Page_Down : KeySymbol := 0xFF56
def KEY_End : KeySymbol := 0xFF57
def KEY_Select : KeySymbol := 0xFF60
def KEY_Print : KeySymbol := 0xFF61
def KEY_Execute : KeySymbol := 0xFF62
def KEY_Insert : KeySymbol := 0xFF63
def KEY_Menu : KeySymbol := 0xFF67
def KEY_Cancel : KeySymbol := 0xFF69
def KEY_Help : KeySymbol := 0xFF6A
def KEY_Num_Lock : KeySymbol := 0xFF7F
def KEY_F1 : KeySymbol := 0xFFBE
def KEY_F2 : KeySymbol := 0xFFBF
def KEY_F3 : KeySymbol := 0xFFC0
def KEY_F4 : KeySymbol := 0xFFC1
def KEY_F5 : KeySymbol := 0xFFC2
def KEY_F6 : KeySymbol := 0xFFC3
def KEY_F7 : KeySymbol := 0xFFC4
def KEY_F8 : KeySymbol := 0xFFC5
def KEY_F9 : KeySymbol := 0xFFC6
def KEY_F10 : KeySymbol := 0xFFC7
def KEY_F11 : KeySymbol := 0xFFC8
def KEY_F12 : KeySymbol := 0xFFC9
def KEY_F13 : KeySymbol := 0xFFCA
def KEY_F14 : KeySymbol := 0xFFCB
def KEY_F15 : KeySymbol := 0xFFCC
def KEY_F16 : KeySymbol := 0xFFCD
def KEY_F17 : KeySymbol := 0xFFCE
def KEY_F18 : KeySymbol := 0xFFCF
def KEY_F19 : KeySymbol := 0xFFD0
def KEY_F20 : KeySymbol := 0xFFD1
def KEY_F21 : KeySymbol := 0xFFD2
def KEY_F22 : KeySymbol := 0xFFD3
def KEY_F23 : KeySymbol := 0xFFD4
def KEY_F24 : KeySymbol := 0xFFD5
def KEY_Shift_L : KeySymbol := 0xFFE1
def KEY_Shift_R : KeySymbol := 0xFFE2
def KEY_Control_L : KeySymbol := 0xFFE3
def KEY_Control_R : KeySymbol := 0xFFE4
def KEY_Caps_Lock : KeySymbol := 0xFFE5

def MODKEY_OFF : KeyModifier := 0
def MODKEY_Shift : KeyModifier := 1
def MODKEY_CapsLock : KeyModifier := 2
def MODKEY_Control : KeyModifier := 4
def MODKEY_Alt : KeyModifier := 8
def MODKEY_NumLock : KeyModifier := 16
def MODKEY_Meta : KeyModifier := 128

end vsg

/-! ## `std::map<uint32_t, vsg::KeySymbol>` -/

namespace std

/-- A `std::map<uint32_t, vsg::KeySymbol>`: at most one value per key. -/
abbrev map := List (Nat × vsg.KeySymbol)

/-- The member `find`: the value stored under `k`, or `none` for `end()`. -/
def map.find (m : map) (k : Nat) : Option vsg.KeySymbol :=
  List.lookup k m

/-- The member `insert`: an element whose key is already present is not inserted. -/
def map.insert (m : map) (kv : Nat × vsg.KeySymbol) : map :=
  match map.find m kv.1 with
  | some _ => m
  | none => m ++ [kv]

/-- The initializer-list constructor inserts the elements of the list in order. -/
def map.ofInitializerList (il : List (Nat × vsg.KeySymbol)) : map :=
  il.foldl map.insert []

/-- The function `std::round` on a finite `double`, whose value is a rational number:
the nearest integer, halfway cases rounded away from zero. -/
def round (x : ℚ) : ℤ :=
  if 0 ≤ x then ⌊x + 1 / 2⌋ else -⌊-x + 1 / 2⌋

end std

/-! ## The type `double` -/

/-- A value of the C++ type `double` (IEEE 754 binary64): a finite value, given by the
rational number it denotes, an infinity, or a NaN. The sign of a zero is not represented. -/
inductive Double where
  | finite (value : ℚ)
  | posInf
  | negInf
  | nan
  deriving DecidableEq

namespace Double

/-- The integer nearest to `q`, a tie going to the even one. -/
def roundNearestEven (q : ℚ) : ℤ :=
  if q - ⌊q⌋ < 1 / 2 then ⌊q⌋
  else if 1 / 2 < q - ⌊q⌋ then ⌊q⌋ + 1
  else if ⌊q⌋ % 2 = 0 then ⌊q⌋
  else ⌊q⌋ + 1

/-- The exponent of the binade of `q`: `⌊log₂ |q|⌋`, and `-1022`, the exponent the
subnormal numbers share, when that is smaller. -/
def exponent (q : ℚ) : ℤ :=
  max (Int.log 2 |q|) (-1022)

/-- The `double` an operation returns whose exact result is `q`: `q` rounded to 53
significant bits with round-to-nearest, ties-to-even, and an infinity when the rounded
value reaches `2 ^ 1024`. -/
def ofRat (q : ℚ) : Double :=
  let ulp : ℚ := 2 ^ (exponent q - 52)
  let r : ℚ := roundNearestEven (q / ulp) * ulp
  if 2 ^ 1024 ≤ r then posInf
  else if r ≤ -2 ^ 1024 then negInf
  else finite r

/-- The operator `-` with one operand. -/
def neg : Double → Double
  | finite a => finite (-a)
  | posInf => negInf
  | negInf => posInf
  | nan => nan

/-- The operator `+`. -/
def add : Double → Double → Double
  | finite a, finite b => ofRat (a + b)
  | nan, _ => nan
  | _, nan => nan
  | posInf, negInf => nan
  | negInf, posInf => nan
  | posInf, _ => posInf
  | _, posInf => posInf
  | negInf, _ => negInf
  | _, negInf => negInf

/-- The operator `-` with two operands. -/
def sub (a b : Double) : Double :=
  add a (neg b)

/-- The operator `*`. -/
def mul : Double → Double → Double
  | finite a, finite b => ofRat (a * b)
  | nan, _ => nan
  | _, nan => nan
  | finite a, posInf => if a = 0 then nan else if 0 < a then posInf else negInf
  | finite a, negInf => if a = 0 then nan else if 0 < a then negInf else posInf
  | posInf, finite b => if b = 0 then nan else if 0 < b then posInf else negInf
  | negInf, finite b => if b = 0 then nan else if 0 < b then negInf else posInf
  | posInf, posInf => posInf
  | posInf, negInf => negInf
  | negInf, posInf => negInf
  | negInf, negInf => posInf

/-- The operator `/`. A zero divisor is taken as `+0`: the divisors of the source are
conversions of unsigned integers. -/
def div : Double → Double → Double
  | finite a, finite b =>
    if b = 0 then (if a = 0 then nan else if 0 < a then posInf else negInf)
    else ofRat (a / b)
  | nan, _ => nan
  | _, nan => nan
  | finite _, posInf => finite 0
  | finite _, negInf => finite 0
  | posInf, finite b => if 0 ≤ b then posInf else negInf
  | negInf, finite b => if 0 ≤ b then negInf else posInf
  | posInf, posInf => nan
  | posInf, negInf => nan
  | negInf, posInf => nan
  | negInf, negInf => nan

/-- The `double` nearest to the square root of a positive rational `q`. With `j` such that
`q / 4 ^ j` lies in `[2 ^ 104, 2 ^ 106)`, the root of `q / 4 ^ j` lies in `[2 ^ 52, 2 ^ 53)`,
`Nat.sqrt` gives its integer part, and the comparison with the midpoint decides the
rounding of the 53-bit significand. -/
def sqrtRat (q : ℚ) : ℚ :=
  let j : ℤ := Int.log 4 q - 52
  let y : ℚ := q / 4 ^ j
  let f : ℕ := Nat.sqrt ⌊y⌋₊
  let n : ℕ :=
    if y < ((f : ℚ) + 1 / 2) ^ 2 then f
    else if ((f : ℚ) + 1 / 2) ^ 2 < y then f + 1
    else if f % 2 = 0 then f
    else f + 1
  (n : ℚ) * 2 ^ j

/-- The function `std::sqrt`. -/
def sqrt : Double → Double
  | finite a => if a < 0 then nan else if a = 0 then finite 0 else finite (sqrtRat a)
  | posInf => posInf
  | negInf => nan
  | nan => nan

instance : Neg Double := ⟨neg⟩

instance : Add Double := ⟨add⟩

instance : Sub Double := ⟨sub⟩

instance : Mul Double := ⟨mul⟩

instance : Div Double := ⟨div⟩

instance : Zero Double := ⟨finite 0⟩

/-- The conversion of an unsigned integer to `double`. -/
instance : NatCast Double := ⟨fun n => ofRat (n : ℚ)⟩

/-- A decimal literal: the `double` nearest to the decimal number. -/
instance : OfScientific Double :=
  ⟨fun mantissa exponentSign decimalExponent =>
    ofRat (OfScientific.ofScientific mantissa exponentSign decimalExponent : ℚ)⟩

end Double

/-! ## `KeyboardMap.cpp` -/

namespace Engine

/-- The numeric value of an ASCII character literal. -/
def chr (c : Char) : Nat := c.toNat

/-- The braced initializer of `_keycodeMap` in the constructor, entry by entry. -/
def keycodeEntries : List (Nat × vsg.KeySymbol) :=
  [ (0x0, vsg.KEY_Undefined),
    (Qt.Key_Space, vsg.KEY_Space),
    (Qt.Key_Home, vsg.KEY_Home),
    (Qt.Key_Left, vsg.KEY_Left),
    (Qt.Key_Up, vsg.KEY_Up),
    (Qt.Key_Right, vsg.KEY_Right),
    (Qt.Key_Down, vsg.KEY_Down),
    (Qt.Key_PageUp, vsg.KEY_Page_Up),
    (Qt.Key_Home, vsg.KEY_Next),
    (Qt.Key_PageDown, vsg.KEY_Page_Down),
    (Qt.Key_End, vsg.KEY_End),
    (chr '!', vsg.KEY_Exclaim),
    (chr '"', vsg.KEY_Quotedbl),
    (chr '#', vsg.KEY_Hash),
    (chr '$', vsg.KEY_Dollar),
    (chr '&', vsg.KEY_Ampersand),
    (Qt.Key_QuoteLeft, vsg.KEY_Quote),
    (chr '(', vsg.KEY_Leftparen),
    (chr ')', vsg.KEY_Rightparen),
    (chr '*', vsg.KEY_Asterisk),
    (chr '+', vsg.KEY_Plus),
    (Qt.Key_Comma, vsg.KEY_Comma),
    (Qt.Key_Minus, vsg.KEY_Minus),
    (Qt.Key_Period, vsg.KEY_Period),
    (Qt.Key_Slash, vsg.KEY_Slash),
    (chr ':', vsg.KEY_Colon),
    (Qt.Key_Semicolon, vsg.KEY_Semicolon),
    (chr '<', vsg.KEY_Less),
    (Qt.Key_Equal, vsg.KEY_Equals),
    (chr '>', vsg.KEY_Greater),
    (chr '?', vsg.KEY_Question),
    (chr '@', vsg.KEY_At),
    (Qt.Key_BracketLeft, vsg.KEY_Leftbracket),
    (Qt.Key_Backslash, vsg.KEY_Backslash),
    (Qt.Key_BracketRight, vsg.KEY_Rightbracket),
    (chr '|', vsg.KEY_Caret),
    (chr '_', vsg.KEY_Underscore),
    (0xc0, vsg.KEY_Backquote),
    (Qt.Key_Back, vsg.KEY_BackSpace),
    (Qt.Key_Tab, vsg.KEY_Tab),
    (Qt.Key_Backtab, vsg.KEY_Tab),
    (Qt.Key_Clear, vsg.KEY_Clear),
    (Qt.Key_Return, vsg.KEY_Return),
    (Qt.Key_Pause, vsg.KEY_Pause),
    (Qt.Key_ScrollLock, vsg.KEY_Scroll_Lock),
    (Qt.Key_Escape, vsg.KEY_Escape),
    (Qt.Key_Delete, vsg.KEY_Delete),
    (Qt.Key_Select, vsg.KEY_Select),
    (Qt.Key_Print, vsg.KEY_Print),
    (Qt.Key_Execute, vsg.KEY_Execute),
    (Qt.Key_Insert, vsg.KEY_Insert),
    (Qt.Key_Menu, vsg.KEY_Menu),
    (Qt.Key_Cancel, vsg.KEY_Cancel),
    (Qt.Key_Help, vsg.KEY_Help),
    (Qt.Key_NumLock, vsg.KEY_Num_Lock),
    (Qt.Key_F1, vsg.KEY_F1),
    (Qt.Key_F2, vsg.KEY_F2),
    (Qt.Key_F3, vsg.KEY_F3),
    (Qt.Key_F4, vsg.KEY_F4),
    (Qt.Key_F5, vsg.KEY_F5),
    (Qt.Key_F6, vsg.KEY_F6),
    (Qt.Key_F7, vsg.KEY_F7),
    (Qt.Key_F8, vsg.KEY_F8),
    (Qt.Key_F9, vsg.KEY_F9),
    (Qt.Key_F10, vsg.KEY_F10),
    (Qt.Key_F11, vsg.KEY_F11),
    (Qt.Key_F12, vsg.KEY_F12),
    (Qt.Key_F13, vsg.KEY_F13),
    (Qt.Key_F14, vsg.KEY_F14),
    (Qt.Key_F15, vsg.KEY_F15),
    (Qt.Key_F16, vsg.KEY_F16),
    (Qt.Key_F17, vsg.KEY_F17),
    (Qt.Key_F18, vsg.KEY_F18),
    (Qt.Key_F19, vsg.KEY_F19),
    (Qt.Key_F20, vsg.KEY_F20),
    (Qt.Key_F21, vsg.KEY_F21),
    (Qt.Key_F22, vsg.KEY_F22),
    (Qt.Key_F23, vsg.KEY_F23),
    (Qt.Key_F24, vsg.KEY_F24),
    (Qt.Key_Shift, vsg.KEY_Shift_L),
    (Qt.Key_Control, vsg.KEY_Control_R),
    (Qt.Key_CapsLock, vsg.KEY_Caps_Lock) ]

/-- The class `KeyboardMap`: its only data member is `_keycodeMap`. -/
structure KeyboardMap where
  _keycodeMap : std.map

set_option linter.dupNamespace false in
/-- The constructor `KeyboardMap::KeyboardMap()`. -/
def KeyboardMap.KeyboardMap : KeyboardMap :=
  { _keycodeMap := std.map.ofInitializerList keycodeEntries }

/-- What `getKeySymbol` reads of a `QKeyEvent`: `key()` (an `int`), `modifiers()`
(the flag word) and `text()` (a `QString`, a sequence of UTF-16 code units). -/
structure QKeyEvent where
  key : Int
  modifiers : Nat
  text : List Nat

/-- The three reference parameters of `getKeySymbol`. -/
structure KeyOut where
  keySymbol : vsg.KeySymbol
  modifiedKeySymbol : vsg.KeySymbol
  keyModifier : vsg.KeyModifier
  deriving DecidableEq, Repr

/-- The conversion `(uint32_t)` of an `int`. -/
def toUInt32 (i : Int) : Nat := (i % 2 ^ 32).toNat

/-- The conversion `vsg::KeySymbol(...)` of an `int`: reduction to `uint16_t`. -/
def toKeySymbol (i : Int) : vsg.KeySymbol := (i % 2 ^ 16).toNat

/-- The byte `*(text.toLatin1().data())`: the first Latin-1 byte of the text, a code
unit above `0xFF` becoming `'?'`, and the terminating `'\0'` of an empty text. -/
def firstLatin1 (text : List Nat) : Nat :=
  match text with
  | [] => 0
  | u :: _ => if u < 256 then u else chr '?'

/-- The value of a byte read as a plain `char`, which is signed or unsigned
depending on the platform. -/
def charValue (charSigned : Bool) (b : Nat) : Int :=
  if charSigned && decide (128 ≤ b) then (b : Int) - 256 else (b : Int)

/-- The member function `KeyboardMap::getKeySymbol`: the returned `bool` and the
values of the three reference parameters after the call (`out` holds them before). -/
def KeyboardMap.getKeySymbol (self : Engine.KeyboardMap) (charSigned : Bool) (e : QKeyEvent)
    (out : KeyOut) : Bool × KeyOut :=
  let modifierMask : Nat := 0
  let modifierMask :=
    if e.modifiers &&& Qt.ShiftModifier ≠ 0 then modifierMask ||| vsg.MODKEY_Shift
    else modifierMask
  let modifierMask :=
    if e.modifiers &&& Qt.ControlModifier ≠ 0 then modifierMask ||| vsg.MODKEY_Control
    else modifierMask
  let modifierMask :=
    if e.modifiers &&& Qt.AltModifier ≠ 0 then modifierMask ||| vsg.MODKEY_Alt
    else modifierMask
  let modifierMask :=
    if e.modifiers &&& Qt.MetaModifier ≠ 0 then modifierMask ||| vsg.MODKEY_Meta
    else modifierMask
  let out := { out with keyModifier := modifierMask % 2 ^ 16 }
  match self._keycodeMap.find (toUInt32 e.key) with
  | some second =>
    let out := { out with keySymbol := second }
    let out := { out with modifiedKeySymbol := out.keySymbol }
    (true, out)
  | none =>
    let out := { out with keySymbol := toKeySymbol e.key }
    let out :=
      if chr 'A' ≤ out.keySymbol ∧ out.keySymbol ≤ chr 'Z' then
        { out with keySymbol := toKeySymbol ((out.keySymbol : Int) + ((chr 'a' : Int) - (chr 'A' : Int))) }
      else out
    let out := { out with modifiedKeySymbol := toKeySymbol (charValue charSigned (firstLatin1 e.text)) }
    (true, out)

/-! ## `Window.h` -/

/-- The conversion `static_cast<int32_t>` of an integral `double`: defined when the
value is representable in `int32_t`, undefined behaviour (`none`) otherwise. -/
def toInt32 (r : ℤ) : Option ℤ :=
  if -2 ^ 31 ≤ r ∧ r ≤ 2 ^ 31 - 1 then some r else none

/-- The member template `Window::convert_coord`. `c` is `static_cast<qreal>(c)` and
`devicePixelRatio` what `devicePixelRatio()` returns; the product is the `double`
product. `std::round` is applied to a finite product; the conversion of an infinite or
NaN product to `int32_t` is undefined behaviour (`none`). -/
def Window.convert_coord (devicePixelRatio : Double) (c : Double) : Option ℤ :=
  match c * devicePixelRatio with
  | Double.finite p => toInt32 (std.round p)
  | _ => none

end Engine

/-! ## Engine value types used by `main.cpp`

The value types are written over a number type `R` with its operations; `sqrt` stands for
`std::sqrt`. The source computes with `R = double`, which is the type `Double` above. -/

namespace vsg

/-- The type `vsg::dvec3`. -/
structure dvec3 (R : Type) where
  x : R
  y : R
  z : R

instance {R : Type} [Add R] : Add (dvec3 R) :=
  ⟨fun a b => ⟨a.x + b.x, a.y + b.y, a.z + b.z⟩⟩

instance {R : Type} [Sub R] : Sub (dvec3 R) :=
  ⟨fun a b => ⟨a.x - b.x, a.y - b.y, a.z - b.z⟩⟩

instance {R : Type} [Mul R] : HMul (dvec3 R) R (dvec3 R) :=
  ⟨fun a s => ⟨a.x * s, a.y * s, a.z * s⟩⟩

/-- The function `vsg::length`: `std::sqrt(v.x * v.x + v.y * v.y + v.z * v.z)`. -/
def length {R : Type} [Add R] [Mul R] (sqrt : R → R) (v : dvec3 R) : R :=
  sqrt (v.x * v.x + v.y * v.y + v.z * v.z)

/-- The type `vsg::dbox`, the `bounds` member of `vsg::ComputeBounds`. -/
structure dbox (R : Type) where
  min : dvec3 R
  max : dvec3 R

/-- A `vsg::Device`, known by its identity. -/
abbrev Device := Nat

/-- A `vsg::EllipsoidModel`, known by its identity. -/
abbrev EllipsoidModel := Nat

/-- What `addView` reads of a `vsg::Node`: the bounds a `vsg::ComputeBounds` visitor
accumulates over it, and the object stored under the key `"EllipsoidModel"`, if any. -/
structure Node (R : Type) where
  bounds : dbox R
  ellipsoidModel : Option EllipsoidModel

/-- What `addView` reads and writes of `vsg::WindowTraits`. -/
structure WindowTraits where
  width : Nat
  height : Nat
  device : Option Device
  deriving DecidableEq, Repr

/-- The arguments of `vsg::LookAt::create`. -/
structure LookAt (R : Type) where
  eye : dvec3 R
  center : dvec3 R
  up : dvec3 R

/-- The two projections `addView` builds, with the arguments of their `create`. -/
inductive ProjectionMatrix (R : Type) where
  | EllipsoidPerspective (lookAt : LookAt R) (ellipsoidModel : EllipsoidModel)
      (fieldOfViewY aspectRatio nearFarRatio horizonMountainHeight : R)
  | Perspective (fieldOfViewY aspectRatio nearDistance farDistance : R)

/-- The type `VkExtent2D`. -/
structure VkExtent2D where
  width : Nat
  height : Nat
  deriving DecidableEq, Repr

/-- The arguments of `vsg::Camera::create`; the viewport state is known by its extent. -/
structure Camera (R : Type) where
  projectionMatrix : ProjectionMatrix R
  viewMatrix : LookAt R
  viewportState : VkExtent2D

/-- What `main` reads of the `vsg::CommandLine` it builds from `argc` and `argv`: whether
`--event-driven` or `--ed` is among the arguments (the result of
`read({"--event-driven", "--ed"})`), the parameter `N` of `--interval N` when that option is
among them, what `errors()` returns, and `argc` once the options are read. -/
structure CommandLine where
  eventDriven : Bool
  interval : Option Int
  errors : Bool
  argc : Nat

/-- The member `value<int>(defaultValue, match)`: the parameter of the option when the
command line holds it, and `defaultValue` otherwise. -/
def CommandLine.value (defaultValue : Int) (parameter : Option Int) : Int :=
  match parameter with
  | some v => v
  | none => defaultValue

end vsg

/-! ## `main.cpp` -/

namespace Engine

/-- An `Engine::Window` as `addView` sees it: the identity of the object and the device
`windowAdapter->getOrCreateDevice()` returns (`none` before initialisation). -/
structure Window where
  addr : Nat
  device : Option vsg.Device
  deriving DecidableEq, Repr

/-- Modelled from the spec: `Window::initializeWindow`, declared in `Window.h`; its body is
in `Window.cpp`, which is not among the sources. It "creates the host-visible surface and,
if the shared device handle is currently empty, creates the device; otherwise reuses the
existing device": the window's device is the shared one when there is one, and the device
`created`, which the engine creates when asked, otherwise. The store of that device into
the shared traits is the statement of `addView` that follows the call (`main.cpp`, line
52), and is not repeated here: the traits are returned as they were. A call in which the
creation fails does not return (the failure is propagated out of `addView`); the model
covers the calls that return. -/
def Window.initializeWindow (created : Option vsg.Device) (traits : vsg.WindowTraits)
    (w : Window) : vsg.WindowTraits × Window :=
  match traits.device with
  | none => (traits, { w with device := created })
  | some d => (traits, { w with device := some d })

end Engine

namespace Main

/-- The widget `QWidget::createWindowContainer` returns: the window it embeds and its title. -/
structure QWidget where
  window : Nat
  windowTitle : String
  deriving DecidableEq, Repr

/-- The calls `addView` makes on the `QMdiArea` base object and on the new widget;
`tileSubWindows` carries the sub-windows the area holds when it is called. -/
inductive HostCall where
  | addSubWindow (widget : QWidget)
  | showMaximized (widget : QWidget)
  | tileSubWindows (subWindows : List QWidget)
  deriving DecidableEq, Repr

/-- The arguments of `vsg::Trackball::create` and the windows added to it. -/
structure Trackball (R : Type) where
  camera : vsg.Camera R
  ellipsoidModel : Option vsg.EllipsoidModel
  windows : List Engine.Window

/-- The event handlers `MultiViewArea` registers with its viewer. -/
inductive EventHandler (R : Type) where
  | closeHandler
  | trackball (t : Trackball R)

/-- The arguments of `vsg::createCommandGraphForView`. -/
structure CommandGraph (R : Type) where
  window : Engine.Window
  camera : vsg.Camera R
  scene : vsg.Node R

/-- What `MultiViewArea` writes of its `Engine::Viewer`. -/
structure Viewer (R : Type) where
  eventHandlers : List (EventHandler R)
  recordAndSubmitTasks : List (List (CommandGraph R))

/-- The struct `MultiViewArea::ViewWindow`; the pointer is modelled by the window. -/
structure ViewWindow where
  window : Engine.Window
  deriving DecidableEq, Repr

/-- The class `MultiViewArea`: its members `traits`, `viewer`, `views`, and of its
`QMdiArea` base the list of sub-windows and the layout calls received so far. -/
structure MultiViewArea (R : Type) where
  traits : vsg.WindowTraits
  viewer : Viewer R
  views : List ViewWindow
  subWindows : List QWidget
  hostCalls : List HostCall

set_option linter.dupNamespace false in
/-- The constructor `MultiViewArea::MultiViewArea`, followed by the assignment
`mdiArea->traits = windowTraits` of `main`. -/
def MultiViewArea.MultiViewArea {R : Type} (windowTraits : vsg.WindowTraits) :
    Main.MultiViewArea R :=
  { traits := windowTraits
    viewer := { eventHandlers := [EventHandler.closeHandler], recordAndSubmitTasks := [] }
    views := []
    subWindows := []
    hostCalls := [] }

/-- The member function `MultiViewArea::addView`. `newWindow` is the identity of the object
`new Engine::Window(viewer, traits)` allocates and `created` the device the engine
creates when asked; the result is the object after the call and the returned index. -/
def MultiViewArea.addView {R : Type} [Add R] [Sub R] [Mul R] [Div R] [Neg R] [Zero R]
    [NatCast R] [OfScientific R] (sqrt : R → R) (self : Main.MultiViewArea R)
    (newWindow : Nat) (created : Option vsg.Device) (vsg_scene : vsg.Node R)
    (title : String) : Main.MultiViewArea R × Nat :=
  let window : Engine.Window := { addr := newWindow, device := none }
  let widget : QWidget := { window := window.addr, windowTitle := "" }
  let widget := { widget with windowTitle := title }
  let self := { self with
    subWindows := self.subWindows ++ [widget]
    hostCalls := self.hostCalls ++ [HostCall.addSubWindow widget] }
  let self :=
    if self.views.isEmpty then
      { self with hostCalls := self.hostCalls ++ [HostCall.showMaximized widget] }
    else
      { self with hostCalls := self.hostCalls ++ [HostCall.tileSubWindows self.subWindows] }
  let initialized := Engine.Window.initializeWindow created self.traits window
  let self := { self with traits := initialized.1 }
  let window := initialized.2
  -- if this is the first window to be created, use its device for future window creation.
  let self :=
    if self.traits.device.isNone then
      { self with traits := { self.traits with device := window.device } }
    else self
  -- compute the bounds of the scene graph to help position camera
  let bounds := vsg_scene.bounds
  let centre : vsg.dvec3 R := (bounds.min + bounds.max) * (0.5 : R)
  let radius : R := vsg.length sqrt (bounds.max - bounds.min) * 0.6
  let nearFarRatio : R := 0.001
  -- `window->traits` is the traits object the window was constructed with, the shared one
  let width : Nat := self.traits.width
  let height : Nat := self.traits.height
  let ellipsoidModel := vsg_scene.ellipsoidModel
  let lookAt : vsg.LookAt R :=
    { eye := centre + vsg.dvec3.mk 0.0 (-radius * 3.5) 0.0
      center := centre
      up := vsg.dvec3.mk 0.0 0.0 1.0 }
  let perspective : vsg.ProjectionMatrix R :=
    match ellipsoidModel with
    | some em =>
      vsg.ProjectionMatrix.EllipsoidPerspective lookAt em 30.0
        ((width : R) / (height : R)) nearFarRatio 0
    | none =>
      vsg.ProjectionMatrix.Perspective 30.0
        ((width : R) / (height : R)) (nearFarRatio * radius) (radius * 4.5)
  let camera : vsg.Camera R :=
    { projectionMatrix := perspective
      viewMatrix := lookAt
      viewportState := { width := width, height := height } }
  let trackball : Trackball R :=
    { camera := camera, ellipsoidModel := ellipsoidModel, windows := [window] }
  let self := { self with
    viewer := { self.viewer with
      eventHandlers := self.viewer.eventHandlers ++ [EventHandler.trackball trackball] } }
  let commandGraph : CommandGraph R :=
    { window := window, camera := camera, scene := vsg_scene }
  let self := { self with
    viewer := { self.viewer with
      recordAndSubmitTasks := self.viewer.recordAndSubmitTasks ++ [[commandGraph]] } }
  let self := { self with views := self.views ++ [{ window := window }] }
  (self, self.views.length - 1)

/-- The calls `addView(scene_1, title_1); addView(scene_2, title_2); ...` made one after the
other, as `main` does: the object after the last call and the returned indices in order. -/
def MultiViewArea.addViews {R : Type} [Add R] [Sub R] [Mul R] [Div R] [Neg R] [Zero R]
    [NatCast R] [OfScientific R] (sqrt : R → R) :
    Main.MultiViewArea R → List (Nat × Option vsg.Device × vsg.Node R × String) →
      Main.MultiViewArea R × List Nat
  | self, [] => (self, [])
  | self, c :: cs =>
    let r := MultiViewArea.addView sqrt self c.1 c.2.1 c.2.2.1 c.2.2.2
    let rest := MultiViewArea.addViews sqrt r.1 cs
    (rest.1, r.2 :: rest.2)

/-- The calls `main` makes on the viewer after the views are added. -/
inductive ViewerCall where
  | compile
  | setInterval (msec : Int)
  deriving DecidableEq, Repr

/-- The frame-pacing members of the `Engine::Viewer` of a `MultiViewArea` (`Viewer.h` is not
among the sources): the minimum interval between ticks in milliseconds, the public member
`continuousUpdate`, and the calls of `main` received so far. -/
structure ViewerPacing where
  interval : Int
  continuousUpdate : Bool
  calls : List ViewerCall
  deriving DecidableEq, Repr

/-- Modelled from the spec: `Engine::Viewer::setInterval`, declared in `Viewer.h`, which is
not among the sources. It sets the "minimum milliseconds between ticks". -/
def ViewerPacing.setInterval (self : ViewerPacing) (msec : Int) : ViewerPacing :=
  { self with interval := msec, calls := self.calls ++ [ViewerCall.setInterval msec] }

/-- What the libraries hand to `main`: the command line, the window traits once
`--samples`, `--window` and `--fullscreen` are read, the scene `vsg::read_cast` loads (if
any), the three windows `addView` allocates with the device the engine creates for each
when asked, the pacing members of the viewer `Engine::Viewer::create()` returns, and what
`arguments.writeErrorMessages` and `application.exec()` return. -/
structure MainEnv (R : Type) where
  arguments : vsg.CommandLine
  windowTraits : vsg.WindowTraits
  vsg_scene : Option (vsg.Node R)
  firstWindow : Nat × Option vsg.Device
  secondWindow : Nat × Option vsg.Device
  thirdWindow : Nat × Option vsg.Device
  viewer : ViewerPacing
  writeErrorMessages : Int
  exec : Int

/-- The function `main`: the exit code and, when the viewer is configured, the
`MultiViewArea` and the pacing members of its viewer when the event loop is entered. -/
def main {R : Type} [Add R] [Sub R] [Mul R] [Div R] [Neg R] [Zero R] [NatCast R]
    [OfScientific R] (sqrt : R → R) (env : MainEnv R) :
    Int × Option (MultiViewArea R × ViewerPacing) :=
  let arguments := env.arguments
  let windowTraits := env.windowTraits
  let continuousUpdate : Bool := !arguments.eventDriven
  let interval : Int := vsg.CommandLine.value 8 arguments.interval
  if arguments.errors then (env.writeErrorMessages, none)
  else if arguments.argc ≤ 1 then (1, none)
  else
    match env.vsg_scene with
    | none => (1, none)
    | some vsg_scene =>
      let mdiArea : MultiViewArea R := MultiViewArea.MultiViewArea windowTraits
      let mdiArea := (MultiViewArea.addView sqrt mdiArea env.firstWindow.1 env.firstWindow.2
        vsg_scene "First Window").1
      let mdiArea := (MultiViewArea.addView sqrt mdiArea env.secondWindow.1 env.secondWindow.2
        vsg_scene "Second Window").1
      let mdiArea := (MultiViewArea.addView sqrt mdiArea env.thirdWindow.1 env.thirdWindow.2
        vsg_scene "Third Window").1
      let viewer := env.viewer
      let viewer := { viewer with calls := viewer.calls ++ [ViewerCall.compile] }
      let viewer := if interval ≥ 0 then viewer.setInterval interval else viewer
      let viewer := { viewer with continuousUpdate := continuousUpdate }
      (env.exec, some (mdiArea, viewer))

/-- A scene whose bounds are the box from `(0, 0, 0)` to `(1, 2, 2)`, of diagonal length 3,
without ellipsoid model. -/
def boxScene : vsg.Node ℚ :=
  { bounds := { min := ⟨0, 0, 0⟩, max := ⟨1, 2, 2⟩ }, ellipsoidModel := none }

/-- An environment of `main` for the command line `viewer --interval -1 model.vsgt`. -/
def negativeIntervalEnv : MainEnv ℚ :=
  { arguments := { eventDriven := false, interval := some (-1), errors := false, argc := 2 }
    windowTraits := { width := 800, height := 600, device := none }
    vsg_scene := some boxScene
    firstWindow := (1, some 7)
    secondWindow := (2, some 8)
    thirdWindow := (3, some 9)
    viewer := { interval := 16, continuousUpdate := true, calls := [] }
    writeErrorMessages := 1
    exec := 0 }

/-- A scene whose bounds are the single point `(1, 2, 3)`, without ellipsoid model. -/
def pointScene : vsg.Node ℚ :=
  { bounds := { min := ⟨1, 2, 3⟩, max := ⟨1, 2, 3⟩ }, ellipsoidModel := none }

/-- A coordinator on which no view has been added: 800 by 600 traits, no device. -/
def freshArea : MultiViewArea ℚ :=
  MultiViewArea.MultiViewArea { width := 800, height := 600, device := none }

/-- A coordinator computing with `double` on which no view has been added: 800 by 600
traits, no device. -/
def doubleArea : MultiViewArea Double :=
  MultiViewArea.MultiViewArea { width := 800, height := 600, device := none }

/-- A scene of `double` bounds that are the single point `(1, 2, 3)`, without ellipsoid
model. -/
def doublePointScene : vsg.Node Double :=
  { bounds :=
      { min := ⟨Double.finite 1, Double.finite 2, Double.finite 3⟩
        max := ⟨Double.finite 1, Double.finite 2, Double.finite 3⟩ }
    ellipsoidModel := none }

/-- A scene whose bounds are the single point `(2 ^ 1023, 2, 3)`, without ellipsoid model;
`2 ^ 1023` is a `double`, and twice that is above the largest one. -/
def largePointScene : vsg.Node Double :=
  { bounds :=
      { min := ⟨Double.finite (2 ^ 1023), Double.finite 2, Double.finite 3⟩
        max := ⟨Double.finite (2 ^ 1023), Double.finite 2, Double.finite 3⟩ }
    ellipsoidModel := none }

/-- A scene whose bounds are the single point `(+∞, 0, 0)`, without ellipsoid model. -/
def infinitePointScene : vsg.Node Double :=
  { bounds :=
      { min := ⟨Double.posInf, Double.finite 0, Double.finite 0⟩
        max := ⟨Double.posInf, Double.finite 0, Double.finite 0⟩ }
    ellipsoidModel := none }

/-- A scene whose bounds are the box from `(0, 1000000, 0)` to `(1, 1000002, 2)`, of
diagonal length 3, without ellipsoid model. -/
def offsetBoxScene : vsg.Node Double :=
  { bounds :=
      { min := ⟨Double.finite 0, Double.finite 1000000, Double.finite 0⟩
        max := ⟨Double.finite 1, Double.finite 1000002, Double.finite 2⟩ }
    ellipsoidModel := none }

end Main

/-! ## Properties of `KeyboardMap::getKeySymbol` -/

namespace Engine

theorem and_flag_ne_zero (n k : Nat) : n &&& 2 ^ k ≠ 0 ↔ n.testBit k = true := by
  rw [Nat.and_two_pow]
  cases n.testBit k <;> simp

/-- The mask `getKeySymbol` assigns, read off the four host flag bits. -/
theorem getKeySymbol_keyModifier (self : KeyboardMap) (charSigned : Bool) (e : QKeyEvent)
    (out : KeyOut) :
    (self.getKeySymbol charSigned e out).2.keyModifier =
      ((if e.modifiers.testBit 25 then 1 else 0) ||| (if e.modifiers.testBit 26 then 4 else 0)
        ||| (if e.modifiers.testBit 27 then 8 else 0)
        ||| (if e.modifiers.testBit 28 then 128 else 0)) := by
  have hS : Qt.ShiftModifier = 2 ^ 25 := by decide
  have hC : Qt.ControlModifier = 2 ^ 26 := by decide
  have hA : Qt.AltModifier = 2 ^ 27 := by decide
  have hM : Qt.MetaModifier = 2 ^ 28 := by decide
  unfold KeyboardMap.getKeySymbol
  simp only [hS, hC, hA, hM, and_flag_ne_zero]
  cases self._keycodeMap.find (toUInt32 e.key) <;>
    cases e.modifiers.testBit 25 <;> cases e.modifiers.testBit 26 <;>
    cases e.modifiers.testBit 27 <;> cases e.modifiers.testBit 28 <;>
    simp [vsg.MODKEY_Shift, vsg.MODKEY_Control, vsg.MODKEY_Alt, vsg.MODKEY_Meta] <;>
    split <;> rfl

/-- Only the bits 0, 2, 3 and 7 can be set in a mask assembled from the four modifiers. -/
theorem modifierBits_testBit (s c a m : Bool) (i : Nat)
    (h0 : i ≠ 0) (h2 : i ≠ 2) (h3 : i ≠ 3) (h7 : i ≠ 7) :
    (((if s then 1 else 0) ||| (if c then 4 else 0) ||| (if a then 8 else 0)
      ||| (if m then 128 else 0) : Nat)).testBit i = false := by
  by_cases hi : i < 8
  · interval_cases i <;> first
      | exact absurd rfl h0
      | exact absurd rfl h2
      | exact absurd rfl h3
      | exact absurd rfl h7
      | (cases s <;> cases c <;> cases a <;> cases m <;> decide)
  · apply Nat.testBit_lt_two_pow
    have h256 : (2 : Nat) ^ 8 ≤ 2 ^ i := Nat.pow_le_pow_right (by decide) (by omega)
    have hlt : (((if s then 1 else 0) ||| (if c then 4 else 0) ||| (if a then 8 else 0)
        ||| (if m then 128 else 0) : Nat)) < 2 ^ 8 := by
      cases s <;> cases c <;> cases a <;> cases m <;> decide
    exact Nat.lt_of_lt_of_le hlt h256

/-- The constructed table, looked up: the first entry of the initializer list with that key. -/
theorem find_ofInitializerList (il : List (Nat × vsg.KeySymbol)) (k : Nat) :
    (std.map.ofInitializerList il).find k = List.lookup k il := by
  have key : ∀ (l m : List (Nat × vsg.KeySymbol)),
      std.map.find (l.foldl std.map.insert m) k =
        (match std.map.find m k with
          | some v => some v
          | none => List.lookup k l) := by
    intro l
    induction l with
    | nil => intro m; simp [std.map.find]; cases List.lookup k m <;> rfl
    | cons a l ih =>
      intro m
      rw [List.foldl_cons, ih]
      unfold std.map.insert
      cases hm : std.map.find m a.1 with
      | some v =>
        simp only [hm]
        cases hk : std.map.find m k with
        | some w => rfl
        | none =>
          simp only []
          have hne : (k == a.1) = false := by
            cases hb : (k == a.1) with
            | false => rfl
            | true =>
              have : k = a.1 := by simpa using hb
              rw [this, hm] at hk
              cases hk
          obtain ⟨a1, a2⟩ := a
          simp only [List.lookup, hne] at *
      | none =>
        simp only [hm]
        obtain ⟨a1, a2⟩ := a
        simp only [std.map.find, List.lookup_append] at *
        cases hk : List.lookup k m with
        | some w => simp
        | none =>
          simp only [Option.none_or, List.lookup]
          cases hb : (k == a1) <;> simp
  have := key il []
  simpa [std.map.ofInitializerList, std.map.find] using this

/-- Claim C1: for every host key code that is a key of the table the constructor builds,
whatever the modifier flags and the produced text, `getKeySymbol` sets `keySymbol` and
`modifiedKeySymbol` to the symbol the table holds for that code. -/
theorem getKeySymbol_table_hit (key : Int) (modifiers : Nat) (text : List Nat)
    (charSigned : Bool) (out : KeyOut) (symbol : vsg.KeySymbol)
    (h : KeyboardMap.KeyboardMap._keycodeMap.find (toUInt32 key) = some symbol) :
    (KeyboardMap.KeyboardMap.getKeySymbol charSigned ⟨key, modifiers, text⟩ out).2.keySymbol
        = symbol ∧
      (KeyboardMap.KeyboardMap.getKeySymbol charSigned
        ⟨key, modifiers, text⟩ out).2.modifiedKeySymbol = symbol := by
  simp [KeyboardMap.getKeySymbol, h]

set_option maxRecDepth 100000 in
theorem getKeySymbol_table_hit_witness :
    KeyboardMap.KeyboardMap._keycodeMap.find (toUInt32 (Qt.Key_Left : Nat)) = some vsg.KEY_Left ∧
      (KeyboardMap.KeyboardMap.getKeySymbol true
          ⟨(Qt.Key_Left : Nat), Qt.ShiftModifier, [chr 'x']⟩ ⟨0, 0, 0⟩).2.keySymbol
        = vsg.KEY_Left ∧
      (KeyboardMap.KeyboardMap.getKeySymbol true
          ⟨(Qt.Key_Left : Nat), Qt.ShiftModifier, [chr 'x']⟩ ⟨0, 0, 0⟩).2.modifiedKeySymbol
        = vsg.KEY_Left :=
  ⟨by decide, getKeySymbol_table_hit _ _ _ _ _ _ (by decide)⟩

set_option maxRecDepth 100000 in
/-- Claim C2: every host key code in the uppercase ASCII range `'A'..'Z'` is absent from the
table, and `getKeySymbol` returns for it `keySymbol = c + ('a' - 'A')`, the lowercase
letter, whatever the modifier flags and the produced text are. -/
theorem getKeySymbol_uppercase (c : Int) (modifiers : Nat) (text : List Nat)
    (charSigned : Bool) (out : KeyOut)
    (hA : (chr 'A' : Int) ≤ c) (hZ : c ≤ (chr 'Z' : Int)) :
    KeyboardMap.KeyboardMap._keycodeMap.find (toUInt32 c) = none ∧
      ((KeyboardMap.KeyboardMap.getKeySymbol charSigned
          ⟨c, modifiers, text⟩ out).2.keySymbol : Int)
        = c + ((chr 'a' : Int) - (chr 'A' : Int)) := by
  have h65 : (chr 'A' : Int) = 65 := by decide
  have h90 : (chr 'Z' : Int) = 90 := by decide
  rw [h65] at hA
  rw [h90] at hZ
  have hfind : KeyboardMap.KeyboardMap._keycodeMap.find (toUInt32 c) = none := by
    interval_cases c <;> decide
  refine ⟨hfind, ?_⟩
  unfold KeyboardMap.getKeySymbol
  simp only [hfind]
  interval_cases c <;> simp [toKeySymbol, chr]

theorem getKeySymbol_uppercase_witness :
    ((chr 'A' : Int) ≤ (chr 'A' : Int) ∧ (chr 'A' : Int) ≤ (chr 'Z' : Int)) ∧
    KeyboardMap.KeyboardMap._keycodeMap.find (toUInt32 (chr 'A' : Int)) = none ∧
      ((KeyboardMap.KeyboardMap.getKeySymbol true
          ⟨(chr 'A' : Int), Qt.ShiftModifier, [chr 'A']⟩ ⟨0, 0, 0⟩).2.keySymbol : Int)
        = (chr 'A' : Int) + ((chr 'a' : Int) - (chr 'A' : Int)) :=
  ⟨by decide, getKeySymbol_uppercase (chr 'A' : Int) Qt.ShiftModifier [chr 'A'] true ⟨0, 0, 0⟩
    (by decide) (by decide)⟩

/-- Claim C3: the `keyModifier` of `getKeySymbol` is the bitwise OR of `MODKEY_Shift`,
`MODKEY_Control`, `MODKEY_Alt` and `MODKEY_Meta` over the host flags that are set; each of
the four bits is set exactly when its host flag is, no other bit is set (in particular not
`MODKEY_CapsLock` or `MODKEY_NumLock`), and the mask is the same for every table, key code,
produced text and previous value of the reference parameters. -/
theorem getKeySymbol_keyModifier_exact (self : KeyboardMap) (charSigned : Bool)
    (e : QKeyEvent) (out : KeyOut) :
    (self.getKeySymbol charSigned e out).2.keyModifier =
        ((if e.modifiers &&& Qt.ShiftModifier ≠ 0 then vsg.MODKEY_Shift else vsg.MODKEY_OFF) |||
          (if e.modifiers &&& Qt.ControlModifier ≠ 0 then vsg.MODKEY_Control else vsg.MODKEY_OFF) |||
          (if e.modifiers &&& Qt.AltModifier ≠ 0 then vsg.MODKEY_Alt else vsg.MODKEY_OFF) |||
          (if e.modifiers &&& Qt.MetaModifier ≠ 0 then vsg.MODKEY_Meta else vsg.MODKEY_OFF)) ∧
      ((self.getKeySymbol charSigned e out).2.keyModifier &&& vsg.MODKEY_Shift ≠ 0 ↔
        e.modifiers &&& Qt.ShiftModifier ≠ 0) ∧
      ((self.getKeySymbol charSigned e out).2.keyModifier &&& vsg.MODKEY_Control ≠ 0 ↔
        e.modifiers &&& Qt.ControlModifier ≠ 0) ∧
      ((self.getKeySymbol charSigned e out).2.keyModifier &&& vsg.MODKEY_Alt ≠ 0 ↔
        e.modifiers &&& Qt.AltModifier ≠ 0) ∧
      ((self.getKeySymbol charSigned e out).2.keyModifier &&& vsg.MODKEY_Meta ≠ 0 ↔
        e.modifiers &&& Qt.MetaModifier ≠ 0) ∧
      (self.getKeySymbol charSigned e out).2.keyModifier &&& vsg.MODKEY_CapsLock = 0 ∧
      (self.getKeySymbol charSigned e out).2.keyModifier &&& vsg.MODKEY_NumLock = 0 ∧
      (∀ i : Nat, i ≠ 0 → i ≠ 2 → i ≠ 3 → i ≠ 7 →
        ((self.getKeySymbol charSigned e out).2.keyModifier).testBit i = false) ∧
      (∀ (self' : KeyboardMap) (charSigned' : Bool) (key' : Int) (text' : List Nat)
          (out' : KeyOut),
        (self'.getKeySymbol charSigned' ⟨key', e.modifiers, text'⟩ out').2.keyModifier =
          (self.getKeySymbol charSigned e out).2.keyModifier) := by
  have hS : Qt.ShiftModifier = 2 ^ 25 := by decide
  have hC : Qt.ControlModifier = 2 ^ 26 := by decide
  have hA : Qt.AltModifier = 2 ^ 27 := by decide
  have hM : Qt.MetaModifier = 2 ^ 28 := by decide
  have hindep : ∀ (self' : KeyboardMap) (charSigned' : Bool) (key' : Int) (text' : List Nat)
      (out' : KeyOut),
      (self'.getKeySymbol charSigned' ⟨key', e.modifiers, text'⟩ out').2.keyModifier =
        (self.getKeySymbol charSigned e out).2.keyModifier := by
    intro self' charSigned' key' text' out'
    rw [getKeySymbol_keyModifier, getKeySymbol_keyModifier]
  refine ⟨?_, ?_, ?_, ?_, ?_, ?_, ?_, ?_, hindep⟩
  case refine_8 =>
    intro i h0 h2 h3 h7
    rw [getKeySymbol_keyModifier]
    exact modifierBits_testBit _ _ _ _ i h0 h2 h3 h7
  all_goals
    rw [getKeySymbol_keyModifier]
    simp only [hS, hC, hA, hM, and_flag_ne_zero, vsg.MODKEY_Shift, vsg.MODKEY_Control,
      vsg.MODKEY_Alt, vsg.MODKEY_Meta, vsg.MODKEY_OFF, vsg.MODKEY_CapsLock,
      vsg.MODKEY_NumLock] <;>
    (cases e.modifiers.testBit 25 <;> cases e.modifiers.testBit 26 <;>
      cases e.modifiers.testBit 27 <;> cases e.modifiers.testBit 28 <;> decide)

/-- Claim C4: the modifier mask of `getKeySymbol` is order-independent and separable.
For host flag words `F` and `G` the mask of `F ||| G` is the OR of the two masks, so Shift
with Control and Control with Shift both give exactly the Shift and Control bits; and the
mask of `F` without a modifier (`F ^^^ (F &&& m)` clears the bits of `m` in `F`) is the mask
of `F` with that modifier's bit cleared and every other bit unchanged. -/
theorem getKeySymbol_keyModifier_separable (self : KeyboardMap) (charSigned : Bool)
    (key : Int) (text : List Nat) (out : KeyOut) (F G : Nat) :
    (self.getKeySymbol charSigned ⟨key, F ||| G, text⟩ out).2.keyModifier =
        (self.getKeySymbol charSigned ⟨key, F, text⟩ out).2.keyModifier |||
          (self.getKeySymbol charSigned ⟨key, G, text⟩ out).2.keyModifier ∧
      (self.getKeySymbol charSigned
          ⟨key, Qt.ShiftModifier ||| Qt.ControlModifier, text⟩ out).2.keyModifier =
        vsg.MODKEY_Shift ||| vsg.MODKEY_Control ∧
      (self.getKeySymbol charSigned
          ⟨key, Qt.ControlModifier ||| Qt.ShiftModifier, text⟩ out).2.keyModifier =
        vsg.MODKEY_Shift ||| vsg.MODKEY_Control ∧
      (self.getKeySymbol charSigned
          ⟨key, F ^^^ (F &&& Qt.ShiftModifier), text⟩ out).2.keyModifier =
        (self.getKeySymbol charSigned ⟨key, F, text⟩ out).2.keyModifier ^^^
          ((self.getKeySymbol charSigned ⟨key, F, text⟩ out).2.keyModifier
            &&& vsg.MODKEY_Shift) ∧
      (self.getKeySymbol charSigned
          ⟨key, F ^^^ (F &&& Qt.ControlModifier), text⟩ out).2.keyModifier =
        (self.getKeySymbol charSigned ⟨key, F, text⟩ out).2.keyModifier ^^^
          ((self.getKeySymbol charSigned ⟨key, F, text⟩ out).2.keyModifier
            &&& vsg.MODKEY_Control) ∧
      (self.getKeySymbol charSigned
          ⟨key, F ^^^ (F &&& Qt.AltModifier), text⟩ out).2.keyModifier =
        (self.getKeySymbol charSigned ⟨key, F, text⟩ out).2.keyModifier ^^^
          ((self.getKeySymbol charSigned ⟨key, F, text⟩ out).2.keyModifier
            &&& vsg.MODKEY_Alt) ∧
      (self.getKeySymbol charSigned
          ⟨key, F ^^^ (F &&& Qt.MetaModifier), text⟩ out).2.keyModifier =
        (self.getKeySymbol charSigned ⟨key, F, text⟩ out).2.keyModifier ^^^
          ((self.getKeySymbol charSigned ⟨key, F, text⟩ out).2.keyModifier
            &&& vsg.MODKEY_Meta) := by
  have hS : Qt.ShiftModifier = 2 ^ 25 := by decide
  have hC : Qt.ControlModifier = 2 ^ 26 := by decide
  have hA : Qt.AltModifier = 2 ^ 27 := by decide
  have hM : Qt.MetaModifier = 2 ^ 28 := by decide
  simp only [getKeySymbol_keyModifier, hS, hC, hA, hM, Nat.testBit_or, Nat.testBit_xor,
    Nat.testBit_and, Nat.testBit_two_pow, vsg.MODKEY_Shift, vsg.MODKEY_Control,
    vsg.MODKEY_Alt, vsg.MODKEY_Meta]
  refine ⟨?_, ?_, ?_, ?_, ?_, ?_, ?_⟩
  · cases F.testBit 25 <;> cases F.testBit 26 <;> cases F.testBit 27 <;>
      cases F.testBit 28 <;> cases G.testBit 25 <;> cases G.testBit 26 <;>
      cases G.testBit 27 <;> cases G.testBit 28 <;> decide
  · decide
  · decide
  all_goals
    cases F.testBit 25 <;> cases F.testBit 26 <;> cases F.testBit 27 <;>
      cases F.testBit 28 <;> decide

/-- Claim C5: `getKeySymbol` never fails. For every table, every key event (any key code,
in the table or not, any modifier flags, any produced text, the empty text included) it
returns `true`, and the three reference parameters are assigned: their values after the
call do not depend on their values before it. -/
theorem getKeySymbol_never_fails (self : KeyboardMap) (charSigned : Bool) (e : QKeyEvent)
    (out : KeyOut) :
    (self.getKeySymbol charSigned e out).1 = true ∧
      (self.getKeySymbol charSigned ⟨e.key, e.modifiers, []⟩ out).1 = true ∧
      (∀ out' : KeyOut,
        self.getKeySymbol charSigned e out' = self.getKeySymbol charSigned e out) := by
  refine ⟨?_, ?_, ?_⟩
  · unfold KeyboardMap.getKeySymbol
    cases self._keycodeMap.find (toUInt32 e.key) <;> rfl
  · unfold KeyboardMap.getKeySymbol
    cases self._keycodeMap.find (toUInt32 e.key) <;> rfl
  · intro out'
    unfold KeyboardMap.getKeySymbol
    cases self._keycodeMap.find (toUInt32 e.key) with
    | some second => rfl
    | none =>
      simp only []
      split <;> rfl

end Engine

/-! ## Properties of `MultiViewArea::addView` -/

namespace Main

/-- The shared device after one `addView`: the device held before, or else the one the
window initialisation yields. -/
theorem addView_traits_device {R : Type} [Add R] [Sub R] [Mul R] [Div R]
    [Neg R] [Zero R] [NatCast R] [OfScientific R] (sqrt : R → R) (self : MultiViewArea R)
    (newWindow : Nat) (created : Option vsg.Device) (vsg_scene : vsg.Node R)
    (title : String) :
    (MultiViewArea.addView sqrt self newWindow created vsg_scene title).1.traits.device =
      (match self.traits.device with
        | some d => some d
        | none => created) := by
  unfold MultiViewArea.addView Engine.Window.initializeWindow
  by_cases hv : self.views = [] <;> cases hd : self.traits.device <;> cases created <;>
    simp [hv, hd]

/-- The view records after one `addView`: the old ones followed by the new window, which
holds the shared device. -/
theorem addView_views {R : Type} [Add R] [Sub R] [Mul R] [Div R]
    [Neg R] [Zero R] [NatCast R] [OfScientific R] (sqrt : R → R) (self : MultiViewArea R)
    (newWindow : Nat) (created : Option vsg.Device) (vsg_scene : vsg.Node R)
    (title : String) :
    (MultiViewArea.addView sqrt self newWindow created vsg_scene title).1.views =
      self.views ++ [{ window := { addr := newWindow, device :=
        (match self.traits.device with
          | some d => some d
          | none => created) } }] := by
  unfold MultiViewArea.addView Engine.Window.initializeWindow
  by_cases hv : self.views = [] <;> cases hd : self.traits.device <;> cases created <;>
    simp [hv, hd]

theorem addView_index {R : Type} [Add R] [Sub R] [Mul R] [Div R]
    [Neg R] [Zero R] [NatCast R] [OfScientific R] (sqrt : R → R) (self : MultiViewArea R)
    (newWindow : Nat) (created : Option vsg.Device) (vsg_scene : vsg.Node R)
    (title : String) :
    (MultiViewArea.addView sqrt self newWindow created vsg_scene title).2 =
      self.views.length := by
  have h : (MultiViewArea.addView sqrt self newWindow created vsg_scene title).2 =
      (MultiViewArea.addView sqrt self newWindow created vsg_scene title).1.views.length - 1 :=
    rfl
  rw [h, addView_views]
  simp

/-- A populated shared device survives any sequence of `addView` calls. -/
theorem addViews_traits_device_some {R : Type} [Add R] [Sub R] [Mul R] [Div R]
    [Neg R] [Zero R] [NatCast R] [OfScientific R] (sqrt : R → R)
    (calls : List (Nat × Option vsg.Device × vsg.Node R × String)) :
    ∀ (self : MultiViewArea R) (d : vsg.Device), self.traits.device = some d →
      (MultiViewArea.addViews sqrt self calls).1.traits.device = some d := by
  induction calls with
  | nil => intro self d h; exact h
  | cons c cs ih =>
    intro self d h
    unfold MultiViewArea.addViews
    apply ih
    rw [addView_traits_device, h]

/-- The indices a sequence of `addView` calls returns count up from the number of views. -/
theorem addViews_indices {R : Type} [Add R] [Sub R] [Mul R] [Div R]
    [Neg R] [Zero R] [NatCast R] [OfScientific R] (sqrt : R → R)
    (calls : List (Nat × Option vsg.Device × vsg.Node R × String)) :
    ∀ (self : MultiViewArea R),
      (MultiViewArea.addViews sqrt self calls).2 =
        List.range' self.views.length calls.length := by
  induction calls with
  | nil => intro self; rfl
  | cons c cs ih =>
    intro self
    unfold MultiViewArea.addViews
    simp only [List.length_cons, List.range'_succ]
    rw [ih, addView_index, addView_views]
    simp

/-- Claim C7: device sharing in `addView`. If the shared traits hold no device before the
call and the window initialisation yields one, the traits hold that device after the call
and it is the new window's device; if they hold a device before the call they hold the
same device after it. Hence over any sequence of calls a populated device never changes,
and an empty one is populated by the first call. -/
theorem addView_device_sharing {R : Type} [Add R] [Sub R] [Mul R] [Div R]
    [Neg R] [Zero R] [NatCast R] [OfScientific R] (sqrt : R → R) (self : MultiViewArea R)
    (newWindow : Nat) (created : Option vsg.Device) (vsg_scene : vsg.Node R)
    (title : String) :
    (∀ d : vsg.Device, self.traits.device = none → created = some d →
        (MultiViewArea.addView sqrt self newWindow created vsg_scene title).1.traits.device
            = some d ∧
          (MultiViewArea.addView sqrt self newWindow created vsg_scene title).1.views
            = self.views ++ [{ window := { addr := newWindow, device := some d } }]) ∧
      (∀ d : vsg.Device, self.traits.device = some d →
        (MultiViewArea.addView sqrt self newWindow created vsg_scene title).1.traits.device
          = some d) ∧
      (∀ (d : vsg.Device) (calls : List (Nat × Option vsg.Device × vsg.Node R × String)),
        self.traits.device = some d →
          (MultiViewArea.addViews sqrt self calls).1.traits.device = some d) ∧
      (∀ (d : vsg.Device) (calls : List (Nat × Option vsg.Device × vsg.Node R × String)),
        self.traits.device = none → created = some d →
          (MultiViewArea.addViews sqrt self
            ((newWindow, created, vsg_scene, title) :: calls)).1.traits.device = some d) := by
  refine ⟨?_, ?_, ?_, ?_⟩
  · intro d hnone hcreated
    rw [addView_traits_device, addView_views, hnone, hcreated]
    exact ⟨rfl, rfl⟩
  · intro d hsome
    rw [addView_traits_device, hsome]
  · intro d calls hsome
    exact addViews_traits_device_some sqrt calls self d hsome
  · intro d calls hnone hcreated
    unfold MultiViewArea.addViews
    apply addViews_traits_device_some
    rw [addView_traits_device, hnone, hcreated]

/-- Claim C8: `addView` returns the index of the view record it appends. On a coordinator
with `n` view records the call returns `n`, keeps the `n` records in place and adds one
record, holding the newly created window, at position `n`; so the calls made one after the
other on a fresh coordinator return `0, 1, 2, ...`. -/
theorem addView_returns_index {R : Type} [Add R] [Sub R] [Mul R] [Div R]
    [Neg R] [Zero R] [NatCast R] [OfScientific R] (sqrt : R → R) (self : MultiViewArea R)
    (newWindow : Nat) (created : Option vsg.Device) (vsg_scene : vsg.Node R)
    (title : String) :
    (MultiViewArea.addView sqrt self newWindow created vsg_scene title).2
        = self.views.length ∧
      (MultiViewArea.addView sqrt self newWindow created vsg_scene title).1.views.length
        = self.views.length + 1 ∧
      (MultiViewArea.addView sqrt self newWindow created vsg_scene title).1.views.take
          self.views.length = self.views ∧
      (∃ w : ViewWindow, w.window.addr = newWindow ∧
        (MultiViewArea.addView sqrt self newWindow created vsg_scene title).1.views
          = self.views ++ [w] ∧
        (MultiViewArea.addView sqrt self newWindow created vsg_scene title).1.views[
            (MultiViewArea.addView sqrt self newWindow created vsg_scene title).2]? = some w) ∧
      (∀ (windowTraits : vsg.WindowTraits)
          (calls : List (Nat × Option vsg.Device × vsg.Node R × String)),
        (MultiViewArea.addViews sqrt (MultiViewArea.MultiViewArea windowTraits) calls).2
          = List.range calls.length) := by
  refine ⟨addView_index sqrt self newWindow created vsg_scene title, ?_, ?_, ?_, ?_⟩
  · rw [addView_views]; simp
  · rw [addView_views]; simp
  · refine ⟨_, ?_, addView_views sqrt self newWindow created vsg_scene title, ?_⟩
    · rfl
    · rw [addView_index, addView_views]; simp
  · intro windowTraits calls
    rw [addViews_indices, List.range_eq_range']
    rfl

/-- Claim C9: the layout action of `addView` is decided by the number of views recorded
before the call. The call adds the new widget to the container and then, when no view is
recorded, shows the widget maximized and requests no retiling; when at least one view is
recorded, it requests `tileSubWindows` over the sub-windows including the new one and
does not maximize the widget. Exactly one of the two actions happens per call. -/
theorem addView_layout {R : Type} [Add R] [Sub R] [Mul R] [Div R]
    [Neg R] [Zero R] [NatCast R] [OfScientific R] (sqrt : R → R) (self : MultiViewArea R)
    (newWindow : Nat) (created : Option vsg.Device) (vsg_scene : vsg.Node R)
    (title : String) :
    (MultiViewArea.addView sqrt self newWindow created vsg_scene title).1.subWindows
        = self.subWindows ++ [{ window := newWindow, windowTitle := title }] ∧
      (self.views.length = 0 →
        (MultiViewArea.addView sqrt self newWindow created vsg_scene title).1.hostCalls
          = self.hostCalls ++
            [HostCall.addSubWindow { window := newWindow, windowTitle := title },
              HostCall.showMaximized { window := newWindow, windowTitle := title }]) ∧
      (1 ≤ self.views.length →
        (MultiViewArea.addView sqrt self newWindow created vsg_scene title).1.hostCalls
          = self.hostCalls ++
            [HostCall.addSubWindow { window := newWindow, windowTitle := title },
              HostCall.tileSubWindows
                (self.subWindows ++ [{ window := newWindow, windowTitle := title }])]) := by
  unfold MultiViewArea.addView Engine.Window.initializeWindow
  refine ⟨?_, ?_, ?_⟩
  · by_cases hv : self.views = [] <;> cases hd : self.traits.device <;> cases created <;>
      simp [hv, hd]
  · intro h0
    have hv : self.views = [] := List.length_eq_zero.mp h0
    cases hd : self.traits.device <;> cases created <;> simp [hv, hd]
  · intro h1
    have hv : self.views ≠ [] := by
      intro h
      rw [h] at h1
      simp at h1
    cases hd : self.traits.device <;> cases created <;> simp [hv, hd]

theorem addView_device_sharing_witness :
    (freshArea.traits.device = none ∧ (some 7 : Option vsg.Device) = some 7) ∧
      (MultiViewArea.addView (fun x => x) freshArea 1 (some 7) pointScene
          "First Window").1.traits.device = some 7 ∧
      (MultiViewArea.addView (fun x => x) freshArea 1 (some 7) pointScene
          "First Window").1.views
        = freshArea.views ++ [{ window := { addr := 1, device := some 7 } }] ∧
      (MultiViewArea.addViews (fun x => x) freshArea
          [(1, some 7, pointScene, "First Window"), (2, some 8, pointScene, "Second Window"),
            (3, none, pointScene, "Third Window")]).1.traits.device = some 7 :=
  ⟨⟨rfl, rfl⟩,
    ((addView_device_sharing (fun x => x) freshArea 1 (some 7) pointScene
      "First Window").1 7 rfl rfl).1,
    ((addView_device_sharing (fun x => x) freshArea 1 (some 7) pointScene
      "First Window").1 7 rfl rfl).2,
    (addView_device_sharing (fun x => x) freshArea 1 (some 7) pointScene
      "First Window").2.2.2 7 _ rfl rfl⟩

theorem addView_layout_witness :
    (freshArea.views.length = 0 ∧
      1 ≤ (MultiViewArea.addView (fun x => x) freshArea 1 (some 7) pointScene
        "First Window").1.views.length) ∧
      (MultiViewArea.addView (fun x => x) freshArea 1 (some 7) pointScene
          "First Window").1.hostCalls
        = freshArea.hostCalls ++
          [HostCall.addSubWindow { window := 1, windowTitle := "First Window" },
            HostCall.showMaximized { window := 1, windowTitle := "First Window" }] ∧
      (MultiViewArea.addView (fun x => x)
          (MultiViewArea.addView (fun x => x) freshArea 1 (some 7) pointScene
            "First Window").1 2 (some 8) pointScene "Second Window").1.hostCalls
        = (MultiViewArea.addView (fun x => x) freshArea 1 (some 7) pointScene
            "First Window").1.hostCalls ++
          [HostCall.addSubWindow { window := 2, windowTitle := "Second Window" },
            HostCall.tileSubWindows
              ((MultiViewArea.addView (fun x => x) freshArea 1 (some 7) pointScene
                "First Window").1.subWindows ++
                [{ window := 2, windowTitle := "Second Window" }])] :=
  ⟨⟨rfl, by decide⟩,
    (addView_layout (fun x => x) freshArea 1 (some 7) pointScene "First Window").2.1 rfl,
    (addView_layout (fun x => x)
      (MultiViewArea.addView (fun x => x) freshArea 1 (some 7) pointScene "First Window").1
      2 (some 8) pointScene "Second Window").2.2 (by decide)⟩

/-- The camera `addView` builds, the event handler and the task it registers. -/
theorem addView_viewer {R : Type} [Add R] [Sub R] [Mul R] [Div R]
    [Neg R] [Zero R] [NatCast R] [OfScientific R] (sqrt : R → R) (self : MultiViewArea R)
    (newWindow : Nat) (created : Option vsg.Device) (vsg_scene : vsg.Node R)
    (title : String) :
    ∃ (camera : vsg.Camera R) (window : Engine.Window),
      window = { addr := newWindow, device :=
        (match self.traits.device with
          | some d => some d
          | none => created) } ∧
      camera.viewMatrix =
        { eye := (vsg_scene.bounds.min + vsg_scene.bounds.max) * (0.5 : R) +
            vsg.dvec3.mk 0.0
              (-(vsg.length sqrt (vsg_scene.bounds.max - vsg_scene.bounds.min) * 0.6) * 3.5)
              0.0
          center := (vsg_scene.bounds.min + vsg_scene.bounds.max) * (0.5 : R)
          up := vsg.dvec3.mk 0.0 0.0 1.0 } ∧
      camera.projectionMatrix =
        (match vsg_scene.ellipsoidModel with
          | some em =>
            vsg.ProjectionMatrix.EllipsoidPerspective camera.viewMatrix em 30.0
              ((self.traits.width : R) / (self.traits.height : R)) 0.001 0
          | none =>
            vsg.ProjectionMatrix.Perspective 30.0
              ((self.traits.width : R) / (self.traits.height : R))
              (0.001 * (vsg.length sqrt (vsg_scene.bounds.max - vsg_scene.bounds.min) * 0.6))
              (vsg.length sqrt (vsg_scene.bounds.max - vsg_scene.bounds.min) * 0.6 * 4.5)) ∧
      camera.viewportState = { width := self.traits.width, height := self.traits.height } ∧
      (MultiViewArea.addView sqrt self newWindow created vsg_scene title).1.viewer.eventHandlers
        = self.viewer.eventHandlers ++
          [EventHandler.trackball
            { camera := camera, ellipsoidModel := vsg_scene.ellipsoidModel,
              windows := [window] }] ∧
      (MultiViewArea.addView sqrt self newWindow created vsg_scene
          title).1.viewer.recordAndSubmitTasks
        = self.viewer.recordAndSubmitTasks ++
          [[{ window := window, camera := camera, scene := vsg_scene }]] := by
  refine ⟨vsg.Camera.mk
      (match vsg_scene.ellipsoidModel with
        | some em =>
          vsg.ProjectionMatrix.EllipsoidPerspective
            (vsg.LookAt.mk
              ((vsg_scene.bounds.min + vsg_scene.bounds.max) * (0.5 : R) +
                vsg.dvec3.mk 0.0
                  (-(vsg.length sqrt (vsg_scene.bounds.max - vsg_scene.bounds.min) * 0.6)
                    * 3.5) 0.0)
              ((vsg_scene.bounds.min + vsg_scene.bounds.max) * (0.5 : R))
              (vsg.dvec3.mk 0.0 0.0 1.0)) em 30.0
            ((self.traits.width : R) / (self.traits.height : R)) 0.001 0
        | none =>
          vsg.ProjectionMatrix.Perspective 30.0
            ((self.traits.width : R) / (self.traits.height : R))
            (0.001 * (vsg.length sqrt (vsg_scene.bounds.max - vsg_scene.bounds.min) * 0.6))
            (vsg.length sqrt (vsg_scene.bounds.max - vsg_scene.bounds.min) * 0.6 * 4.5))
      (vsg.LookAt.mk
        ((vsg_scene.bounds.min + vsg_scene.bounds.max) * (0.5 : R) +
          vsg.dvec3.mk 0.0
            (-(vsg.length sqrt (vsg_scene.bounds.max - vsg_scene.bounds.min) * 0.6) * 3.5)
            0.0)
        ((vsg_scene.bounds.min + vsg_scene.bounds.max) * (0.5 : R))
        (vsg.dvec3.mk 0.0 0.0 1.0))
      (vsg.VkExtent2D.mk self.traits.width self.traits.height),
    _, rfl, rfl, rfl, rfl, ?_, ?_⟩ <;>
  unfold MultiViewArea.addView Engine.Window.initializeWindow <;>
  by_cases hv : self.views = [] <;> cases hd : self.traits.device <;> cases created <;>
    cases hem : vsg_scene.ellipsoidModel <;> simp [hv, hd, hem]

theorem dvec3_add_mk {R : Type} [Add R] (a b c d e f : R) :
    (vsg.dvec3.mk a b c + vsg.dvec3.mk d e f) = vsg.dvec3.mk (a + d) (b + e) (c + f) := rfl

theorem dvec3_sub_mk {R : Type} [Sub R] (a b c d e f : R) :
    (vsg.dvec3.mk a b c - vsg.dvec3.mk d e f) = vsg.dvec3.mk (a - d) (b - e) (c - f) := rfl

theorem dvec3_mul_mk {R : Type} [Mul R] (a b c s : R) :
    (vsg.dvec3.mk a b c * s) = vsg.dvec3.mk (a * s) (b * s) (c * s) := rfl

end Main

/-! ## The key table and the fallback path of `KeyboardMap::getKeySymbol` -/

namespace Engine

theorem toKeySymbol_fold (k : Nat) (hlo : 65 ≤ k) (hhi : k ≤ 90) :
    toKeySymbol ((k : Int) + (((97 : Nat) : Int) - ((65 : Nat) : Int))) = k + 32 := by
  unfold toKeySymbol
  have h2 : (2 : Int) ^ 16 = 65536 := by norm_num
  have h1 : ((k : Int) + (((97 : Nat) : Int) - ((65 : Nat) : Int))) % 2 ^ 16
      = ((k + 32 : Nat) : Int) := by
    rw [h2]
    push_cast
    omega
  rw [h1]
  exact Int.toNat_ofNat _

/-- The table path of `getKeySymbol`, for any table. -/
theorem getKeySymbol_of_find_some (self : KeyboardMap) (charSigned : Bool) (e : QKeyEvent)
    (out : KeyOut) (symbol : vsg.KeySymbol)
    (h : self._keycodeMap.find (toUInt32 e.key) = some symbol) :
    (self.getKeySymbol charSigned e out).2.keySymbol = symbol ∧
      (self.getKeySymbol charSigned e out).2.modifiedKeySymbol = symbol := by
  simp [KeyboardMap.getKeySymbol, h]

/-- The fallback path of `getKeySymbol`, for any table. -/
theorem getKeySymbol_of_find_none (self : KeyboardMap) (charSigned : Bool) (e : QKeyEvent)
    (out : KeyOut) (h : self._keycodeMap.find (toUInt32 e.key) = none) :
    (self.getKeySymbol charSigned e out).2.keySymbol =
        (if 65 ≤ toKeySymbol e.key ∧ toKeySymbol e.key ≤ 90 then toKeySymbol e.key + 32
          else toKeySymbol e.key) ∧
      (self.getKeySymbol charSigned e out).2.modifiedKeySymbol =
        toKeySymbol (charValue charSigned (firstLatin1 e.text)) := by
  have hA : chr 'A' = 65 := by decide
  have hZ : chr 'Z' = 90 := by decide
  have ha : chr 'a' = 97 := by decide
  unfold KeyboardMap.getKeySymbol
  simp only [h, hA, hZ, ha]
  by_cases hc : 65 ≤ toKeySymbol e.key ∧ toKeySymbol e.key ≤ 90
  · simp only [if_pos hc, and_true]
    exact toKeySymbol_fold _ hc.1 hc.2
  · simp only [if_neg hc, and_self]

set_option maxRecDepth 100000 in
/-- The constructed table: the entries of the initializer list in order, without the
ninth, whose key the third already holds. -/
theorem keycodeMap_eq : KeyboardMap.KeyboardMap._keycodeMap = keycodeEntries.eraseIdx 8 := by
  decide

set_option maxRecDepth 100000 in
/-- What the constructed table holds for the host Home key code. -/
theorem keycodeMap_home :
    KeyboardMap.KeyboardMap._keycodeMap.find (toUInt32 (Qt.Key_Home : Nat))
      = some vsg.KEY_Home := by
  decide

/-- Claim C12, as stated, fails: translating the host Home key code does not yield `KEY_Next`
in `keySymbol` and `modifiedKeySymbol`; it yields `KEY_Home`. -/
theorem getKeySymbol_home_not_next :
    ¬ ((KeyboardMap.KeyboardMap.getKeySymbol true
          ⟨(Qt.Key_Home : Nat), 0, []⟩ ⟨0, 0, 0⟩).2.keySymbol = vsg.KEY_Next ∧
        (KeyboardMap.KeyboardMap.getKeySymbol true
          ⟨(Qt.Key_Home : Nat), 0, []⟩ ⟨0, 0, 0⟩).2.modifiedKeySymbol = vsg.KEY_Next) := by
  rw [(getKeySymbol_of_find_some KeyboardMap.KeyboardMap true
    ⟨(Qt.Key_Home : Nat), 0, []⟩ ⟨0, 0, 0⟩ vsg.KEY_Home keycodeMap_home).1]
  intro h
  exact absurd h.1 (by decide)

set_option maxRecDepth 100000 in
/-- Claim C12, amended: the host Home key code appears in two entries of the initializer
list, first with `KEY_Home` and later with `KEY_Next`; the map keeps the element inserted
first, the second entry is not inserted, and translating the host Home key code yields the
first-declared symbol `KEY_Home` in `keySymbol` and `modifiedKeySymbol`. -/
theorem getKeySymbol_home_first_declared (modifiers : Nat) (text : List Nat)
    (charSigned : Bool) (out : KeyOut) :
    keycodeEntries[2]? = some (Qt.Key_Home, vsg.KEY_Home) ∧
      keycodeEntries[8]? = some (Qt.Key_Home, vsg.KEY_Next) ∧
      KeyboardMap.KeyboardMap._keycodeMap.find (toUInt32 (Qt.Key_Home : Nat))
        = some vsg.KEY_Home ∧
      (Qt.Key_Home, vsg.KEY_Next) ∉ KeyboardMap.KeyboardMap._keycodeMap ∧
      (KeyboardMap.KeyboardMap.getKeySymbol charSigned
          ⟨(Qt.Key_Home : Nat), modifiers, text⟩ out).2.keySymbol = vsg.KEY_Home ∧
      (KeyboardMap.KeyboardMap.getKeySymbol charSigned
          ⟨(Qt.Key_Home : Nat), modifiers, text⟩ out).2.modifiedKeySymbol = vsg.KEY_Home := by
  refine ⟨rfl, rfl, keycodeMap_home, ?_,
    getKeySymbol_of_find_some KeyboardMap.KeyboardMap charSigned
      ⟨(Qt.Key_Home : Nat), modifiers, text⟩ out vsg.KEY_Home keycodeMap_home⟩
  rw [keycodeMap_eq]
  decide


set_option maxRecDepth 100000 in
/-- The unmapped Alt, Meta and Super key codes take the fallback path. -/
theorem keycodeMap_unmapped_modifiers :
    KeyboardMap.KeyboardMap._keycodeMap.find (toUInt32 (Qt.Key_Alt : Nat)) = none ∧
      KeyboardMap.KeyboardMap._keycodeMap.find (toUInt32 (Qt.Key_Meta : Nat)) = none ∧
      KeyboardMap.KeyboardMap._keycodeMap.find (toUInt32 (Qt.Key_Super_L : Nat)) = none ∧
      KeyboardMap.KeyboardMap._keycodeMap.find (toUInt32 (Qt.Key_Super_R : Nat)) = none := by
  decide

/-- Claim C15, as stated, fails: the host Alt key code is not a key of the table and not
in `'A'..'Z'`, yet the `keySymbol` returned for it is `0x23`, not the host key code. -/
theorem getKeySymbol_alt_not_key_code :
    KeyboardMap.KeyboardMap._keycodeMap.find (toUInt32 (Qt.Key_Alt : Nat)) = none ∧
      ¬ ((chr 'A' : Int) ≤ (Qt.Key_Alt : Nat) ∧ ((Qt.Key_Alt : Nat) : Int) ≤ (chr 'Z' : Int)) ∧
      ((KeyboardMap.KeyboardMap.getKeySymbol true
          ⟨(Qt.Key_Alt : Nat), 0, []⟩ ⟨0, 0, 0⟩).2.keySymbol : Int) = 0x23 ∧
      ((KeyboardMap.KeyboardMap.getKeySymbol true
          ⟨(Qt.Key_Alt : Nat), 0, []⟩ ⟨0, 0, 0⟩).2.keySymbol : Int)
        ≠ ((Qt.Key_Alt : Nat) : Int) := by
  have hk := (getKeySymbol_of_find_none KeyboardMap.KeyboardMap true
    ⟨(Qt.Key_Alt : Nat), 0, []⟩ ⟨0, 0, 0⟩ keycodeMap_unmapped_modifiers.1).1
  have hv : toKeySymbol ((Qt.Key_Alt : Nat) : Int) = 0x23 := by decide
  rw [hk]
  simp only [hv]
  refine ⟨keycodeMap_unmapped_modifiers.1, by decide, by decide, by decide⟩

/-- Claim C15, amended: for every host key code that is not a key of the table, is not in
`'A'..'Z'` and fits the 16-bit `KeySymbol` (`0 ≤ c < 2 ^ 16`), `getKeySymbol` returns a
`keySymbol` numerically equal to the host key code. The unmapped Alt, Meta and Super key
codes take this fallback path, but they exceed 16 bits. -/
theorem getKeySymbol_fallback_identity (c : Int) (modifiers : Nat) (text : List Nat)
    (charSigned : Bool) (out : KeyOut)
    (h0 : 0 ≤ c) (h16 : c < 2 ^ 16)
    (hfind : KeyboardMap.KeyboardMap._keycodeMap.find (toUInt32 c) = none)
    (hupper : ¬ ((chr 'A' : Int) ≤ c ∧ c ≤ (chr 'Z' : Int))) :
    ((KeyboardMap.KeyboardMap.getKeySymbol charSigned
        ⟨c, modifiers, text⟩ out).2.keySymbol : Int) = c ∧
      KeyboardMap.KeyboardMap._keycodeMap.find (toUInt32 (Qt.Key_Alt : Nat)) = none ∧
      KeyboardMap.KeyboardMap._keycodeMap.find (toUInt32 (Qt.Key_Meta : Nat)) = none ∧
      KeyboardMap.KeyboardMap._keycodeMap.find (toUInt32 (Qt.Key_Super_L : Nat)) = none ∧
      KeyboardMap.KeyboardMap._keycodeMap.find (toUInt32 (Qt.Key_Super_R : Nat)) = none ∧
      (2 : Int) ^ 16 ≤ (Qt.Key_Alt : Nat) ∧ (2 : Int) ^ 16 ≤ (Qt.Key_Meta : Nat) ∧
      (2 : Int) ^ 16 ≤ (Qt.Key_Super_L : Nat) ∧ (2 : Int) ^ 16 ≤ (Qt.Key_Super_R : Nat) := by
  have hA : (chr 'A' : Int) = 65 := by decide
  have hZ : (chr 'Z' : Int) = 90 := by decide
  rw [hA, hZ] at hupper
  have h2 : (2 : Int) ^ 16 = 65536 := by norm_num
  rw [h2] at h16
  have hk := (getKeySymbol_of_find_none KeyboardMap.KeyboardMap charSigned
    ⟨c, modifiers, text⟩ out hfind).1
  have hv : ((toKeySymbol c : Nat) : Int) = c := by
    unfold toKeySymbol
    rw [h2, Int.emod_eq_of_lt h0 h16]
    exact Int.toNat_of_nonneg h0
  have hnot : ¬ (65 ≤ toKeySymbol c ∧ toKeySymbol c ≤ 90) := by
    intro hc
    apply hupper
    have h1 : ((65 : Nat) : Int) ≤ ((toKeySymbol c : Nat) : Int) := Int.ofNat_le.mpr hc.1
    have h3 : ((toKeySymbol c : Nat) : Int) ≤ ((90 : Nat) : Int) := Int.ofNat_le.mpr hc.2
    rw [hv] at h1 h3
    exact ⟨by simpa using h1, by simpa using h3⟩
  refine ⟨?_, keycodeMap_unmapped_modifiers.1, keycodeMap_unmapped_modifiers.2.1,
    keycodeMap_unmapped_modifiers.2.2.1, keycodeMap_unmapped_modifiers.2.2.2,
    by decide, by decide, by decide, by decide⟩
  rw [hk]
  show (((if 65 ≤ toKeySymbol c ∧ toKeySymbol c ≤ 90 then toKeySymbol c + 32
    else toKeySymbol c : Nat)) : Int) = c
  rw [if_neg hnot]
  exact hv

set_option maxRecDepth 100000 in
theorem getKeySymbol_fallback_identity_witness :
    ((0 : Int) ≤ (chr 'a' : Int) ∧ (chr 'a' : Int) < 2 ^ 16 ∧
      KeyboardMap.KeyboardMap._keycodeMap.find (toUInt32 (chr 'a' : Int)) = none ∧
      ¬ ((chr 'A' : Int) ≤ (chr 'a' : Int) ∧ (chr 'a' : Int) ≤ (chr 'Z' : Int))) ∧
    ((KeyboardMap.KeyboardMap.getKeySymbol true
        ⟨(chr 'a' : Int), Qt.ShiftModifier, [chr 'A']⟩ ⟨0, 0, 0⟩).2.keySymbol : Int)
      = (chr 'a' : Int) :=
  ⟨by decide,
    (getKeySymbol_fallback_identity (chr 'a' : Int) Qt.ShiftModifier [chr 'A'] true ⟨0, 0, 0⟩
      (by decide) (by decide) (by decide) (by decide)).1⟩


theorem toKeySymbol_natCast (u : Nat) (h : u < 65536) : toKeySymbol (u : Int) = u := by
  unfold toKeySymbol
  have h2 : (2 : Int) ^ 16 = 65536 := by norm_num
  rw [h2, Int.emod_eq_of_lt (Int.ofNat_nonneg u) (by exact_mod_cast h)]
  exact Int.toNat_ofNat u

set_option maxRecDepth 100000 in
/-- The host key codes of the letters `O` and `E` take the fallback path. -/
theorem keycodeMap_letters_O_E :
    KeyboardMap.KeyboardMap._keycodeMap.find (toUInt32 (chr 'O' : Int)) = none ∧
      KeyboardMap.KeyboardMap._keycodeMap.find (toUInt32 (chr 'E' : Int)) = none := by
  decide

/-- Claim C16, as stated, fails: for a key code outside the table, a first character
outside Latin-1 (`U+0151`) gives `modifiedKeySymbol = '?'` whatever the signedness of
`char`, and where `char` is signed the Latin-1 letter `U+00E9` gives `0xFFE9`; neither is
the character code. -/
theorem getKeySymbol_modified_not_char_code :
    KeyboardMap.KeyboardMap._keycodeMap.find (toUInt32 (chr 'O' : Int)) = none ∧
      KeyboardMap.KeyboardMap._keycodeMap.find (toUInt32 (chr 'E' : Int)) = none ∧
      (KeyboardMap.KeyboardMap.getKeySymbol false
          ⟨(chr 'O' : Int), 0, [0x151]⟩ ⟨0, 0, 0⟩).2.modifiedKeySymbol = chr '?' ∧
      (KeyboardMap.KeyboardMap.getKeySymbol false
          ⟨(chr 'O' : Int), 0, [0x151]⟩ ⟨0, 0, 0⟩).2.modifiedKeySymbol ≠ 0x151 ∧
      (KeyboardMap.KeyboardMap.getKeySymbol true
          ⟨(chr 'O' : Int), 0, [0x151]⟩ ⟨0, 0, 0⟩).2.modifiedKeySymbol ≠ 0x151 ∧
      (KeyboardMap.KeyboardMap.getKeySymbol true
          ⟨(chr 'E' : Int), 0, [0xE9]⟩ ⟨0, 0, 0⟩).2.modifiedKeySymbol = 0xFFE9 ∧
      (KeyboardMap.KeyboardMap.getKeySymbol true
          ⟨(chr 'E' : Int), 0, [0xE9]⟩ ⟨0, 0, 0⟩).2.modifiedKeySymbol ≠ 0xE9 := by
  have h1 := (getKeySymbol_of_find_none KeyboardMap.KeyboardMap false
    ⟨(chr 'O' : Int), 0, [0x151]⟩ ⟨0, 0, 0⟩ keycodeMap_letters_O_E.1).2
  have h2 := (getKeySymbol_of_find_none KeyboardMap.KeyboardMap true
    ⟨(chr 'O' : Int), 0, [0x151]⟩ ⟨0, 0, 0⟩ keycodeMap_letters_O_E.1).2
  have h3 := (getKeySymbol_of_find_none KeyboardMap.KeyboardMap true
    ⟨(chr 'E' : Int), 0, [0xE9]⟩ ⟨0, 0, 0⟩ keycodeMap_letters_O_E.2).2
  rw [h1, h2, h3]
  refine ⟨keycodeMap_letters_O_E.1, keycodeMap_letters_O_E.2, ?_, ?_, ?_, ?_, ?_⟩ <;> decide

/-- Claim C16, amended: for every key event whose key code is not a key of the table,
`modifiedKeySymbol` is determined by the produced text alone, independently of the key
code and of the case folding of `keySymbol`: it is the code of the first character when
that character is ASCII (below 128), also when it is another Latin-1 character (below 256)
where plain `char` is unsigned, and 0 for the empty text. -/
theorem getKeySymbol_modified_first_char (self : KeyboardMap) (charSigned : Bool)
    (e : QKeyEvent) (out : KeyOut)
    (hfind : self._keycodeMap.find (toUInt32 e.key) = none) :
    (e.text = [] → (self.getKeySymbol charSigned e out).2.modifiedKeySymbol = 0) ∧
      (∀ (u : Nat) (rest : List Nat), e.text = u :: rest → u < 128 →
        (self.getKeySymbol charSigned e out).2.modifiedKeySymbol = u) ∧
      (∀ (u : Nat) (rest : List Nat), e.text = u :: rest → u < 256 → charSigned = false →
        (self.getKeySymbol charSigned e out).2.modifiedKeySymbol = u) ∧
      (∀ (key' : Int) (modifiers' : Nat) (out' : KeyOut),
        self._keycodeMap.find (toUInt32 key') = none →
        (self.getKeySymbol charSigned ⟨key', modifiers', e.text⟩ out').2.modifiedKeySymbol
          = (self.getKeySymbol charSigned e out).2.modifiedKeySymbol) := by
  have hk := (getKeySymbol_of_find_none self charSigned e out hfind).2
  refine ⟨?_, ?_, ?_, ?_⟩
  · intro ht
    rw [hk, ht]
    cases charSigned <;> decide
  · intro u rest ht hu
    rw [hk, ht]
    have h256 : u < 256 := by omega
    have hn : ¬ (128 ≤ u) := by omega
    simp only [firstLatin1, charValue, if_pos h256, hn, decide_False, Bool.and_false,
      Bool.false_eq_true, if_false]
    exact toKeySymbol_natCast u (by omega)
  · intro u rest ht hu hs
    rw [hk, ht, hs]
    simp only [firstLatin1, charValue, if_pos hu, Bool.false_and, Bool.false_eq_true, if_false]
    exact toKeySymbol_natCast u (by omega)
  · intro key' modifiers' out' hfind'
    rw [hk, (getKeySymbol_of_find_none self charSigned ⟨key', modifiers', e.text⟩ out'
      hfind').2]

set_option maxRecDepth 100000 in
theorem getKeySymbol_modified_first_char_witness :
    KeyboardMap.KeyboardMap._keycodeMap.find
        (toUInt32 (QKeyEvent.mk (chr 'O' : Int) Qt.ShiftModifier [chr 'O']).key) = none ∧
      (KeyboardMap.KeyboardMap.getKeySymbol true
          ⟨(chr 'O' : Int), Qt.ShiftModifier, [chr 'O']⟩ ⟨0, 0, 0⟩).2.modifiedKeySymbol
        = chr 'O' :=
  ⟨by decide,
    (getKeySymbol_modified_first_char KeyboardMap.KeyboardMap true
      ⟨(chr 'O' : Int), Qt.ShiftModifier, [chr 'O']⟩ ⟨0, 0, 0⟩ (by decide)).2.1
      (chr 'O') [] rfl (by decide)⟩


set_option maxRecDepth 100000 in
/-- Claim C17 at the host Backspace key code: `Qt::Key_Backspace` is not a key of the
table, whose `KEY_BackSpace` entry is keyed by `Qt::Key_Back`; translating it takes the
fallback path and yields `keySymbol = 3`. The other fifteen editing and control keys of
the claim are keys of the table, mapped to the symbol of the same name. -/
theorem keycodeMap_editing_keys :
    KeyboardMap.KeyboardMap._keycodeMap.find (toUInt32 (Qt.Key_Backspace : Nat)) = none ∧
      KeyboardMap.KeyboardMap._keycodeMap.find (toUInt32 (Qt.Key_Back : Nat))
        = some vsg.KEY_BackSpace ∧
      (KeyboardMap.KeyboardMap.getKeySymbol true
          ⟨(Qt.Key_Backspace : Nat), 0, [8]⟩ ⟨0, 0, 0⟩).2.keySymbol = 3 ∧
      (KeyboardMap.KeyboardMap.getKeySymbol true
          ⟨(Qt.Key_Backspace : Nat), 0, [8]⟩ ⟨0, 0, 0⟩).2.keySymbol ≠ vsg.KEY_BackSpace ∧
      (∀ p ∈ [(Qt.Key_Tab, vsg.KEY_Tab), (Qt.Key_Clear, vsg.KEY_Clear),
            (Qt.Key_Return, vsg.KEY_Return), (Qt.Key_Pause, vsg.KEY_Pause),
            (Qt.Key_ScrollLock, vsg.KEY_Scroll_Lock), (Qt.Key_Escape, vsg.KEY_Escape),
            (Qt.Key_Delete, vsg.KEY_Delete), (Qt.Key_Select, vsg.KEY_Select),
            (Qt.Key_Print, vsg.KEY_Print), (Qt.Key_Execute, vsg.KEY_Execute),
            (Qt.Key_Insert, vsg.KEY_Insert), (Qt.Key_Menu, vsg.KEY_Menu),
            (Qt.Key_Cancel, vsg.KEY_Cancel), (Qt.Key_Help, vsg.KEY_Help),
            (Qt.Key_NumLock, vsg.KEY_Num_Lock)],
        KeyboardMap.KeyboardMap._keycodeMap.find (toUInt32 (p.1 : Nat)) = some p.2) := by
  have hnone : KeyboardMap.KeyboardMap._keycodeMap.find (toUInt32 (Qt.Key_Backspace : Nat))
      = none := by decide
  have hk := (getKeySymbol_of_find_none KeyboardMap.KeyboardMap true
    ⟨(Qt.Key_Backspace : Nat), 0, [8]⟩ ⟨0, 0, 0⟩ hnone).1
  rw [hk]
  refine ⟨hnone, by decide, by decide, by decide, by decide⟩

set_option maxRecDepth 100000 in
/-- Claim C18 at the backquote, vertical bar and apostrophe key codes: the table maps the
backquote key code `0x60` to `KEY_Quote` and the code of `|` to `KEY_Caret`, the code
`0x27` of the apostrophe is not a key, and `KEY_Backquote` sits under the key `0xc0`.
The other twenty-four punctuation characters of the claim are keys of the table, mapped
to the symbol of the same character. -/
theorem keycodeMap_punctuation :
    KeyboardMap.KeyboardMap._keycodeMap.find (toUInt32 (Qt.Key_QuoteLeft : Nat))
        = some vsg.KEY_Quote ∧
      Qt.Key_QuoteLeft = 0x60 ∧ vsg.KEY_Backquote = 0x60 ∧ vsg.KEY_Quote = 0x27 ∧
      (KeyboardMap.KeyboardMap.getKeySymbol true
          ⟨(Qt.Key_QuoteLeft : Nat), 0, [0x60]⟩ ⟨0, 0, 0⟩).2.keySymbol = vsg.KEY_Quote ∧
      (KeyboardMap.KeyboardMap.getKeySymbol true
          ⟨(Qt.Key_QuoteLeft : Nat), 0, [0x60]⟩ ⟨0, 0, 0⟩).2.modifiedKeySymbol
        = vsg.KEY_Quote ∧
      KeyboardMap.KeyboardMap._keycodeMap.find (toUInt32 ((0xc0 : Nat) : Int))
        = some vsg.KEY_Backquote ∧
      KeyboardMap.KeyboardMap._keycodeMap.find (toUInt32 (chr '|' : Int))
        = some vsg.KEY_Caret ∧
      vsg.KEY_Caret = chr '^' ∧
      KeyboardMap.KeyboardMap._keycodeMap.find (toUInt32 ((0x27 : Nat) : Int)) = none ∧
      (∀ p ∈ [(chr '!', vsg.KEY_Exclaim), (chr '"', vsg.KEY_Quotedbl), (chr '#', vsg.KEY_Hash),
            (chr '$', vsg.KEY_Dollar), (chr '&', vsg.KEY_Ampersand),
            (chr '(', vsg.KEY_Leftparen), (chr ')', vsg.KEY_Rightparen),
            (chr '*', vsg.KEY_Asterisk), (chr '+', vsg.KEY_Plus), (chr ',', vsg.KEY_Comma),
            (chr '-', vsg.KEY_Minus), (chr '.', vsg.KEY_Period), (chr '/', vsg.KEY_Slash),
            (chr ':', vsg.KEY_Colon), (chr ';', vsg.KEY_Semicolon), (chr '<', vsg.KEY_Less),
            (chr '=', vsg.KEY_Equals), (chr '>', vsg.KEY_Greater),
            (chr '?', vsg.KEY_Question), (chr '@', vsg.KEY_At),
            (chr '[', vsg.KEY_Leftbracket), (0x5c, vsg.KEY_Backslash),
            (chr ']', vsg.KEY_Rightbracket), (chr '_', vsg.KEY_Underscore)],
        KeyboardMap.KeyboardMap._keycodeMap.find (toUInt32 (p.1 : Nat)) = some p.2 ∧
          p.2 = p.1) := by
  have hq : KeyboardMap.KeyboardMap._keycodeMap.find (toUInt32 (Qt.Key_QuoteLeft : Nat))
      = some vsg.KEY_Quote := by decide
  have hk := getKeySymbol_of_find_some KeyboardMap.KeyboardMap true
    ⟨(Qt.Key_QuoteLeft : Nat), 0, [0x60]⟩ ⟨0, 0, 0⟩ vsg.KEY_Quote hq
  refine ⟨hq, rfl, rfl, rfl, hk.1, hk.2, by decide, by decide, by decide, by decide,
    by decide⟩


/-- A value found by `lookup` is the second component of an element of the list. -/
theorem mem_of_lookup_eq_some (l : List (Nat × vsg.KeySymbol)) (k : Nat) (v : vsg.KeySymbol)
    (h : List.lookup k l = some v) : (k, v) ∈ l := by
  induction l with
  | nil => simp at h
  | cons a l ih =>
    obtain ⟨a1, a2⟩ := a
    rw [List.lookup_cons] at h
    cases hb : (k == a1) with
    | true =>
      rw [hb] at h
      have hk : k = a1 := by simpa using hb
      have hv : a2 = v := by simpa using h
      rw [hk, hv]
      exact List.mem_cons_self _ _
    | false =>
      rw [hb] at h
      exact List.mem_cons_of_mem _ (ih h)

set_option maxRecDepth 100000 in
theorem keycodeMap_def :
    KeyboardMap.KeyboardMap._keycodeMap = std.map.ofInitializerList keycodeEntries := by
  unfold KeyboardMap.KeyboardMap
  exact Eq.refl _

set_option maxRecDepth 100000 in
/-- No symbol of the initializer list is an uppercase ASCII letter. -/
theorem keycodeEntries_not_uppercase :
    ∀ p ∈ keycodeEntries, ¬ (65 ≤ p.2 ∧ p.2 ≤ 90) := by
  decide

/-- Claim C19: the `keySymbol` returned by `getKeySymbol` is never an uppercase ASCII
letter. For every key event, table hit or miss, any modifiers and any text, the value lies
outside `'A'..'Z'`: no table entry maps to that range and the fallback path folds it to
lowercase. -/
theorem getKeySymbol_never_uppercase (charSigned : Bool) (e : QKeyEvent) (out : KeyOut) :
    ¬ (chr 'A' ≤ (KeyboardMap.KeyboardMap.getKeySymbol charSigned e out).2.keySymbol ∧
        (KeyboardMap.KeyboardMap.getKeySymbol charSigned e out).2.keySymbol ≤ chr 'Z') ∧
      (∀ (k : Nat) (v : vsg.KeySymbol),
        KeyboardMap.KeyboardMap._keycodeMap.find k = some v → ¬ (chr 'A' ≤ v ∧ v ≤ chr 'Z')) ∧
      (KeyboardMap.KeyboardMap._keycodeMap.find (toUInt32 e.key) = none →
        chr 'A' ≤ toKeySymbol e.key → toKeySymbol e.key ≤ chr 'Z' →
        (KeyboardMap.KeyboardMap.getKeySymbol charSigned e out).2.keySymbol
          = toKeySymbol e.key + (chr 'a' - chr 'A')) := by
  have hA : chr 'A' = 65 := by decide
  have hZ : chr 'Z' = 90 := by decide
  have ha : chr 'a' = 97 := by decide
  rw [hA, hZ, ha]
  have htable : ∀ (k : Nat) (v : vsg.KeySymbol),
      KeyboardMap.KeyboardMap._keycodeMap.find k = some v → ¬ (65 ≤ v ∧ v ≤ 90) := by
    intro k v hf
    rw [keycodeMap_def, find_ofInitializerList] at hf
    have hl : List.lookup k keycodeEntries = some v := hf
    exact keycodeEntries_not_uppercase (k, v) (mem_of_lookup_eq_some _ _ _ hl)
  refine ⟨?_, htable, ?_⟩
  · cases hf : KeyboardMap.KeyboardMap._keycodeMap.find (toUInt32 e.key) with
    | some v =>
      rw [(getKeySymbol_of_find_some KeyboardMap.KeyboardMap charSigned e out v hf).1]
      exact htable _ v hf
    | none =>
      rw [(getKeySymbol_of_find_none KeyboardMap.KeyboardMap charSigned e out hf).1]
      have key : ∀ t : Nat, ¬ (65 ≤ (if 65 ≤ t ∧ t ≤ 90 then t + 32 else t) ∧
          (if 65 ≤ t ∧ t ≤ 90 then t + 32 else t) ≤ 90) := by
        intro t
        split <;> omega
      exact key _
  · intro hf h1 h2
    rw [(getKeySymbol_of_find_none KeyboardMap.KeyboardMap charSigned e out hf).1]
    rw [if_pos ⟨h1, h2⟩]

end Engine

/-! ## Properties of `main` -/

namespace Main

/-- Claim C13: tick interval configuration in `main`, on a run that reaches it (no command
line error, a path argument, a scene that loads). With `N` the configured `--interval`
value, 8 when the option is absent: if `N` is negative the viewer's interval is left
unchanged and `setInterval` is not called; if `N` is non-negative the interval is set to
exactly `N`. Independently, `continuousUpdate` is true exactly when neither
`--event-driven` nor `--ed` was given. -/
theorem main_interval {R : Type} [Add R] [Sub R] [Mul R] [Div R]
    [Neg R] [Zero R] [NatCast R] [OfScientific R] (sqrt : R → R) (env : MainEnv R)
    (vsg_scene : vsg.Node R)
    (herrors : env.arguments.errors = false) (hargc : 1 < env.arguments.argc)
    (hscene : env.vsg_scene = some vsg_scene) :
    ∃ (mdiArea : MultiViewArea R) (viewer : ViewerPacing),
      main sqrt env = (env.exec, some (mdiArea, viewer)) ∧
      (vsg.CommandLine.value 8 env.arguments.interval < 0 →
        viewer.interval = env.viewer.interval ∧
          viewer.calls = env.viewer.calls ++ [ViewerCall.compile]) ∧
      (0 ≤ vsg.CommandLine.value 8 env.arguments.interval →
        viewer.interval = vsg.CommandLine.value 8 env.arguments.interval ∧
          viewer.calls = env.viewer.calls ++ [ViewerCall.compile,
            ViewerCall.setInterval (vsg.CommandLine.value 8 env.arguments.interval)]) ∧
      (∀ N : Int, env.arguments.interval = some N →
        vsg.CommandLine.value 8 env.arguments.interval = N) ∧
      (env.arguments.interval = none →
        vsg.CommandLine.value 8 env.arguments.interval = 8 ∧ viewer.interval = 8) ∧
      (viewer.continuousUpdate = true ↔ env.arguments.eventDriven = false) := by
  have hargc' : ¬ (env.arguments.argc ≤ 1) := by omega
  have hmain : main sqrt env = (env.exec, some
      ((MultiViewArea.addView sqrt
          (MultiViewArea.addView sqrt
            (MultiViewArea.addView sqrt (MultiViewArea.MultiViewArea env.windowTraits)
              env.firstWindow.1 env.firstWindow.2 vsg_scene "First Window").1
            env.secondWindow.1 env.secondWindow.2 vsg_scene "Second Window").1
          env.thirdWindow.1 env.thirdWindow.2 vsg_scene "Third Window").1,
        ViewerPacing.mk
          (if vsg.CommandLine.value 8 env.arguments.interval ≥ 0 then
            vsg.CommandLine.value 8 env.arguments.interval else env.viewer.interval)
          (!env.arguments.eventDriven)
          (if vsg.CommandLine.value 8 env.arguments.interval ≥ 0 then
            env.viewer.calls ++ [ViewerCall.compile,
              ViewerCall.setInterval (vsg.CommandLine.value 8 env.arguments.interval)]
            else env.viewer.calls ++ [ViewerCall.compile]))) := by
    unfold main
    simp only [herrors, hargc', hscene, Bool.false_eq_true, if_false]
    by_cases hN : vsg.CommandLine.value 8 env.arguments.interval ≥ 0
    · simp [hN, ViewerPacing.setInterval]
    · simp [hN]
  refine ⟨_, _, hmain, ?_, ?_, ?_, ?_, ?_⟩
  · intro hneg
    have hN : ¬ (vsg.CommandLine.value 8 env.arguments.interval ≥ 0) := by omega
    simp only [if_neg hN]
    exact ⟨trivial, trivial⟩
  · intro hpos
    have hN : vsg.CommandLine.value 8 env.arguments.interval ≥ 0 := hpos
    simp only [if_pos hN]
    exact ⟨trivial, trivial⟩
  · intro N hsome
    rw [hsome]
    rfl
  · intro hnone
    rw [hnone]
    exact ⟨rfl, rfl⟩
  · cases env.arguments.eventDriven <;> simp

theorem main_interval_witness :
    (negativeIntervalEnv.arguments.errors = false ∧ 1 < negativeIntervalEnv.arguments.argc ∧
      negativeIntervalEnv.vsg_scene = some boxScene) ∧
    ∃ (mdiArea : MultiViewArea ℚ) (viewer : ViewerPacing),
      main (fun x => x) negativeIntervalEnv = (negativeIntervalEnv.exec, some (mdiArea, viewer)) ∧
      (vsg.CommandLine.value 8 negativeIntervalEnv.arguments.interval < 0 →
        viewer.interval = negativeIntervalEnv.viewer.interval ∧
          viewer.calls = negativeIntervalEnv.viewer.calls ++ [ViewerCall.compile]) ∧
      (0 ≤ vsg.CommandLine.value 8 negativeIntervalEnv.arguments.interval →
        viewer.interval = vsg.CommandLine.value 8 negativeIntervalEnv.arguments.interval ∧
          viewer.calls = negativeIntervalEnv.viewer.calls ++ [ViewerCall.compile,
            ViewerCall.setInterval
              (vsg.CommandLine.value 8 negativeIntervalEnv.arguments.interval)]) ∧
      (∀ N : Int, negativeIntervalEnv.arguments.interval = some N →
        vsg.CommandLine.value 8 negativeIntervalEnv.arguments.interval = N) ∧
      (negativeIntervalEnv.arguments.interval = none →
        vsg.CommandLine.value 8 negativeIntervalEnv.arguments.interval = 8 ∧
          viewer.interval = 8) ∧
      (viewer.continuousUpdate = true ↔ negativeIntervalEnv.arguments.eventDriven = false) :=
  ⟨⟨rfl, by decide, rfl⟩,
    main_interval (fun x => x) negativeIntervalEnv boxScene rfl (by decide) rfl⟩

end Main

/-! ## The camera `MultiViewArea::addView` derives -/

namespace Main

/-- The width and height of the shared traits are not written by `addView`. -/
theorem addView_traits_size {R : Type} [Add R] [Sub R] [Mul R] [Div R]
    [Neg R] [Zero R] [NatCast R] [OfScientific R] (sqrt : R → R) (self : MultiViewArea R)
    (newWindow : Nat) (created : Option vsg.Device) (vsg_scene : vsg.Node R)
    (title : String) :
    (MultiViewArea.addView sqrt self newWindow created vsg_scene title).1.traits.width
        = self.traits.width ∧
      (MultiViewArea.addView sqrt self newWindow created vsg_scene title).1.traits.height
        = self.traits.height := by
  unfold MultiViewArea.addView Engine.Window.initializeWindow
  by_cases hv : self.views = [] <;> cases hd : self.traits.device <;> cases created <;>
    simp [hv, hd]

/-- Claim C11: projection choice in `addView`. If the scene carries an `"EllipsoidModel"`
object the projection is an `EllipsoidPerspective` with field of view 30, aspect ratio
traits width / traits height and near/far ratio 0.001; otherwise it is a `Perspective` with
field of view 30, the same aspect ratio, near `0.001 × R` and far `4.5 × R`, `R` being the
derived view radius. The two cases are exclusive and exhaustive. -/
theorem addView_projection {R : Type} [Add R] [Sub R] [Mul R] [Div R]
    [Neg R] [Zero R] [NatCast R] [OfScientific R] (sqrt : R → R) (self : MultiViewArea R)
    (newWindow : Nat) (created : Option vsg.Device) (vsg_scene : vsg.Node R)
    (title : String) :
    ∃ (camera : vsg.Camera R) (window : Engine.Window),
      (MultiViewArea.addView sqrt self newWindow created vsg_scene
          title).1.viewer.recordAndSubmitTasks
        = self.viewer.recordAndSubmitTasks ++
          [[{ window := window, camera := camera, scene := vsg_scene }]] ∧
      (∀ em : vsg.EllipsoidModel, vsg_scene.ellipsoidModel = some em →
        camera.projectionMatrix =
          vsg.ProjectionMatrix.EllipsoidPerspective camera.viewMatrix em 30.0
            ((self.traits.width : R) / (self.traits.height : R)) 0.001 0) ∧
      (vsg_scene.ellipsoidModel = none →
        camera.projectionMatrix =
          vsg.ProjectionMatrix.Perspective 30.0
            ((self.traits.width : R) / (self.traits.height : R))
            (0.001 * (vsg.length sqrt (vsg_scene.bounds.max - vsg_scene.bounds.min) * 0.6))
            (vsg.length sqrt (vsg_scene.bounds.max - vsg_scene.bounds.min) * 0.6 * 4.5)) ∧
      (vsg_scene.ellipsoidModel = none ∨ ∃ em, vsg_scene.ellipsoidModel = some em) ∧
      ¬ (vsg_scene.ellipsoidModel = none ∧ ∃ em, vsg_scene.ellipsoidModel = some em) ∧
      (MultiViewArea.addView sqrt self newWindow created vsg_scene title).1.traits.width
        = self.traits.width ∧
      (MultiViewArea.addView sqrt self newWindow created vsg_scene title).1.traits.height
        = self.traits.height := by
  obtain ⟨camera, window, -, -, hproj, -, -, htasks⟩ :=
    addView_viewer sqrt self newWindow created vsg_scene title
  refine ⟨camera, window, htasks, ?_, ?_, ?_, ?_,
    addView_traits_size sqrt self newWindow created vsg_scene title⟩
  · intro em hem
    rw [hproj, hem]
  · intro hem
    rw [hproj, hem]
  · cases vsg_scene.ellipsoidModel with
    | none => exact Or.inl rfl
    | some em => exact Or.inr ⟨em, rfl⟩
  · rintro ⟨hnone, em, hsome⟩
    rw [hnone] at hsome
    cases hsome

theorem addView_projection_witness :
    ∃ (camera : vsg.Camera ℚ) (window : Engine.Window),
      (MultiViewArea.addView (fun x => x) freshArea 1 (some 7)
          { boxScene with ellipsoidModel := some 5 } "First Window").1.viewer.recordAndSubmitTasks
        = freshArea.viewer.recordAndSubmitTasks ++
          [[{ window := window, camera := camera,
              scene := { boxScene with ellipsoidModel := some 5 } }]] ∧
      camera.projectionMatrix =
        vsg.ProjectionMatrix.EllipsoidPerspective camera.viewMatrix 5 30.0
          ((freshArea.traits.width : ℚ) / (freshArea.traits.height : ℚ)) 0.001 0 := by
  obtain ⟨camera, window, htasks, hem, -⟩ :=
    addView_projection (fun x => x) freshArea 1 (some 7)
      { boxScene with ellipsoidModel := some 5 } "First Window"
  exact ⟨camera, window, htasks, hem 5 rfl⟩


end Main

/-! ## Rounding to `double` -/

namespace Double

theorem roundNearestEven_of_abs_sub_lt (q : ℚ) (n : ℤ) (h : |q - n| < 1 / 2) :
    roundNearestEven q = n := by
  obtain ⟨h1, h2⟩ := abs_lt.mp h
  unfold roundNearestEven
  rcases le_or_lt (n : ℚ) q with hq | hq
  · have hfl : ⌊q⌋ = n := by
      rw [Int.floor_eq_iff]
      constructor <;> linarith
    rw [hfl, if_pos (by linarith)]
  · have hfl : ⌊q⌋ = n - 1 := by
      rw [Int.floor_eq_iff]
      push_cast
      constructor <;> linarith
    rw [hfl]
    push_cast
    rw [if_neg (by linarith), if_pos (by linarith)]
    ring

theorem roundNearestEven_intCast (n : ℤ) : roundNearestEven (n : ℚ) = n :=
  roundNearestEven_of_abs_sub_lt _ n (by simp)

theorem roundNearestEven_tie (n : ℤ) :
    roundNearestEven ((n : ℚ) + 1 / 2) = if n % 2 = 0 then n else n + 1 := by
  have hfl : ⌊(n : ℚ) + 1 / 2⌋ = n := by
    rw [Int.floor_eq_iff]
    constructor <;> linarith
  unfold roundNearestEven
  rw [hfl, if_neg (by linarith), if_neg (by linarith)]

theorem abs_roundNearestEven_sub_le (q : ℚ) : |(roundNearestEven q : ℚ) - q| ≤ 1 / 2 := by
  have h1 := Int.floor_le q
  have h2 := Int.lt_floor_add_one q
  unfold roundNearestEven
  split_ifs with ha hb hc <;> push_cast <;> rw [abs_le] <;> constructor <;> linarith

theorem exponent_eq_of_bounds (q : ℚ) (e : ℤ) (he : -1022 ≤ e) (hlo : (2 : ℚ) ^ e ≤ |q|)
    (hhi : |q| < (2 : ℚ) ^ (e + 1)) : exponent q = e := by
  have hpos : 0 < |q| := lt_of_lt_of_le (by positivity) hlo
  have h2 : ((2 : ℕ) : ℚ) = 2 := by norm_num
  have hlog : Int.log 2 |q| = e := by
    apply le_antisymm
    · have := (Int.lt_zpow_iff_log_lt (b := 2) (by norm_num) hpos (x := e + 1)).mp
        (by rw [h2]; exact hhi)
      omega
    · exact (Int.zpow_le_iff_le_log (b := 2) (by norm_num) hpos).mp (by rw [h2]; exact hlo)
  unfold exponent
  rw [hlog]
  exact max_eq_left he

theorem exponent_eq_of_lt (q : ℚ) (hq : q ≠ 0) (h : |q| < (2 : ℚ) ^ (-1022 : ℤ)) :
    exponent q = -1022 := by
  have hpos : 0 < |q| := abs_pos.mpr hq
  have h2 : ((2 : ℕ) : ℚ) = 2 := by norm_num
  have hlog : Int.log 2 |q| < -1022 :=
    (Int.lt_zpow_iff_log_lt (b := 2) (by norm_num) hpos).mp (by rw [h2]; exact h)
  unfold exponent
  exact max_eq_right (le_of_lt hlog)

theorem ofRat_zero : ofRat 0 = finite 0 := by
  have h0 : roundNearestEven (0 : ℚ) = 0 := by
    simpa using roundNearestEven_intCast 0
  unfold ofRat
  simp only [zero_div, h0, Int.cast_zero, zero_mul]
  rw [if_neg (by norm_num), if_neg (by norm_num)]

/-- The value of `ofRat` at a positive rational of a normal binade. -/
theorem ofRat_eq_finite (q : ℚ) (e m : ℤ) (he : -1022 ≤ e) (hlo : (2 : ℚ) ^ e ≤ q)
    (hhi : q < (2 : ℚ) ^ (e + 1)) (hm : roundNearestEven (q / 2 ^ (e - 52)) = m)
    (hfin : (m : ℚ) * 2 ^ (e - 52) < 2 ^ 1024) :
    ofRat q = finite ((m : ℚ) * 2 ^ (e - 52)) := by
  have hq : 0 < q := lt_of_lt_of_le (by positivity) hlo
  have hexp : exponent q = e :=
    exponent_eq_of_bounds q e he (by rw [abs_of_pos hq]; exact hlo)
      (by rw [abs_of_pos hq]; exact hhi)
  have hm0 : (0 : ℚ) ≤ (m : ℚ) * 2 ^ (e - 52) := by
    have hx : 0 ≤ q / 2 ^ (e - 52) := div_nonneg (le_of_lt hq) (by positivity)
    have hr := abs_roundNearestEven_sub_le (q / 2 ^ (e - 52))
    rw [hm] at hr
    have h1 := (abs_le.mp hr).1
    have hm1 : (-1 : ℚ) < (m : ℚ) := by linarith
    have hm2 : (-1 : ℤ) < m := by exact_mod_cast hm1
    have hm3 : (0 : ℚ) ≤ (m : ℚ) := by exact_mod_cast (show (0 : ℤ) ≤ m by omega)
    exact mul_nonneg hm3 (by positivity)
  unfold ofRat
  simp only [hexp, hm]
  rw [if_neg (not_le.mpr hfin), if_neg (by
    have : (-2 : ℚ) ^ 1024 = 2 ^ 1024 := by norm_num
    intro hle
    have hpow : (0 : ℚ) < 2 ^ 1024 := by positivity
    linarith)]

end Double

namespace Double

/-- A positive rational that is a multiple of the unit of its binade is a `double`. -/
theorem ofRat_eq_self (q : ℚ) (e N : ℤ) (he : -1022 ≤ e) (hlo : (2 : ℚ) ^ e ≤ q)
    (hhi : q < (2 : ℚ) ^ (e + 1)) (hN : q / 2 ^ (e - 52) = (N : ℚ)) (hfin : q < 2 ^ 1024) :
    ofRat q = finite q := by
  have hpow : (2 : ℚ) ^ (e - 52) ≠ 0 := by positivity
  have hq : (N : ℚ) * 2 ^ (e - 52) = q := by
    rw [← hN]
    field_simp
  have h := ofRat_eq_finite q e N he hlo hhi (by rw [hN]; exact roundNearestEven_intCast N)
    (by rw [hq]; exact hfin)
  rw [h, hq]

/-- The rounding error of `ofRat` is at most half a unit of the binade. -/
theorem ofRat_abs_error (q r : ℚ) (h : ofRat q = finite r) :
    |r - q| ≤ 2 ^ (exponent q - 53) := by
  have hr : r = (roundNearestEven (q / 2 ^ (exponent q - 52)) : ℚ) * 2 ^ (exponent q - 52) := by
    unfold ofRat at h
    simp only at h
    split_ifs at h
    exact (Double.finite.inj h).symm
  have hpos : (0 : ℚ) < 2 ^ (exponent q - 52) := by positivity
  have herr := abs_roundNearestEven_sub_le (q / 2 ^ (exponent q - 52))
  have hsplit : r - q = ((roundNearestEven (q / 2 ^ (exponent q - 52)) : ℚ)
      - q / 2 ^ (exponent q - 52)) * 2 ^ (exponent q - 52) := by
    rw [hr]
    field_simp
  have hhalf : (2 : ℚ) ^ (exponent q - 53) = 1 / 2 * 2 ^ (exponent q - 52) := by
    rw [show exponent q - 52 = (exponent q - 53) + 1 by ring, zpow_add_one₀ (by norm_num)]
    ring
  rw [hsplit, abs_mul, abs_of_pos hpos, hhalf]
  exact mul_le_mul_of_nonneg_right herr (le_of_lt hpos)

/-- The relative rounding error of `ofRat` in the normal range is at most `2 ^ (-53)`. -/
theorem ofRat_rel_error (q r : ℚ) (h : ofRat q = finite r)
    (hn : (2 : ℚ) ^ (-1022 : ℤ) ≤ |q|) : |r - q| ≤ 2 ^ (-53 : ℤ) * |q| := by
  have hpos : 0 < |q| := lt_of_lt_of_le (by positivity) hn
  have h2 : ((2 : ℕ) : ℚ) = 2 := by norm_num
  have hle : -1022 ≤ Int.log 2 |q| :=
    (Int.zpow_le_iff_le_log (b := 2) (by norm_num) hpos).mp (by rw [h2]; exact hn)
  have hexp : exponent q = Int.log 2 |q| := max_eq_left hle
  have hlog : (2 : ℚ) ^ Int.log 2 |q| ≤ |q| := by
    have := Int.zpow_log_le_self (b := 2) (by norm_num) hpos
    rwa [h2] at this
  have herr := ofRat_abs_error q r h
  rw [hexp] at herr
  have hsplit : (2 : ℚ) ^ (Int.log 2 |q| - 53) = 2 ^ (-53 : ℤ) * 2 ^ Int.log 2 |q| := by
    rw [← zpow_add₀ (by norm_num : (2 : ℚ) ≠ 0)]
    congr 1
    ring
  rw [hsplit] at herr
  exact le_trans herr (mul_le_mul_of_nonneg_left hlog (by positivity))

end Double

/-! ## Properties of `Window::convert_coord` -/

namespace Engine

/-- The value `std::round(x)` lies within one half of `x`, the half being reached only on the
side away from zero. -/
theorem round_bounds (x : ℚ) :
    (0 ≤ x → x - 1 / 2 < (std.round x : ℚ) ∧ (std.round x : ℚ) ≤ x + 1 / 2) ∧
      (x < 0 → x - 1 / 2 ≤ (std.round x : ℚ) ∧ (std.round x : ℚ) < x + 1 / 2) := by
  constructor
  · intro h
    have h1 := Int.floor_le (x + 1 / 2)
    have h2 := Int.lt_floor_add_one (x + 1 / 2)
    simp only [std.round, h, if_true]
    constructor <;> linarith
  · intro h
    have h1 := Int.floor_le (-x + 1 / 2)
    have h2 := Int.lt_floor_add_one (-x + 1 / 2)
    have hx : ¬ (0 ≤ x) := not_le.mpr h
    simp only [std.round, hx, if_false, Int.cast_neg]
    constructor <;> linarith

theorem round_abs_le (x : ℚ) : |(std.round x : ℚ) - x| ≤ 1 / 2 := by
  rcases le_or_lt 0 x with h | h
  · obtain ⟨h1, h2⟩ := (round_bounds x).1 h
    exact abs_le.mpr ⟨by linarith, by linarith⟩
  · obtain ⟨h1, h2⟩ := (round_bounds x).2 h
    exact abs_le.mpr ⟨by linarith, by linarith⟩

/-- The literals and conversions of the examples, as `double`s. -/
theorem double_literals_convert_coord :
    (1.7 : Double) = Double.finite (7656119366529843 / 2 ^ 52) ∧
      ((5 : ℕ) : Double) = Double.finite 5 ∧
      (2.0 : Double) = Double.finite 2 ∧
      (10.4 : Double) = Double.finite (5854679515581645 / 2 ^ 49) := by
  refine ⟨?_, ?_, ?_, ?_⟩
  · show Double.ofRat (1.7 : ℚ) = _
    rw [Double.ofRat_eq_finite (1.7 : ℚ) 0 7656119366529843 (by norm_num) (by norm_num)
      (by norm_num)
      (Double.roundNearestEven_of_abs_sub_lt _ _ (by rw [abs_lt]; constructor <;> norm_num))
      (by norm_num)]
    norm_num
  · show Double.ofRat ((5 : ℕ) : ℚ) = _
    rw [Double.ofRat_eq_self ((5 : ℕ) : ℚ) 2 (5 * 2 ^ 50) (by norm_num) (by norm_num)
      (by norm_num) (by norm_num) (by norm_num)]
    norm_num
  · show Double.ofRat (2.0 : ℚ) = _
    rw [Double.ofRat_eq_self (2.0 : ℚ) 1 (2 ^ 52) (by norm_num) (by norm_num)
      (by norm_num) (by norm_num) (by norm_num)]
    norm_num
  · show Double.ofRat (10.4 : ℚ) = _
    rw [Double.ofRat_eq_finite (10.4 : ℚ) 3 5854679515581645 (by norm_num) (by norm_num)
      (by norm_num)
      (Double.roundNearestEven_of_abs_sub_lt _ _ (by rw [abs_lt]; constructor <;> norm_num))
      (by norm_num)]
    norm_num

/-- The `double` products of the examples. -/
theorem double_products_convert_coord :
    (Double.finite 5 * Double.finite (7656119366529843 / 2 ^ 52) : Double)
        = Double.finite (17 / 2) ∧
      (Double.finite (5854679515581645 / 2 ^ 49) * Double.finite 2 : Double)
        = Double.finite (5854679515581645 / 2 ^ 48) := by
  constructor
  · show Double.ofRat (5 * (7656119366529843 / 2 ^ 52)) = _
    rw [Double.ofRat_eq_finite _ 3 4785074604081152 (by norm_num) (by norm_num)
      (by norm_num)
      (Double.roundNearestEven_of_abs_sub_lt _ _ (by rw [abs_lt]; constructor <;> norm_num))
      (by norm_num)]
    norm_num
  · show Double.ofRat (5854679515581645 / 2 ^ 49 * 2) = _
    rw [Double.ofRat_eq_self _ 4 5854679515581645 (by norm_num) (by norm_num)
      (by norm_num) (by norm_num) (by norm_num)]
    norm_num

/-- Claim C6, as stated, fails: with `devicePixelRatio` 1.7 and host coordinate 5 the
`double` product is 8.5 and `convert_coord` returns 9, while the product of the two values
lies below 8.5 and the integer nearest to it is 8. -/
theorem convert_coord_not_nearest :
    (1.7 : Double) = Double.finite (7656119366529843 / 2 ^ 52) ∧
      ((5 : ℕ) : Double) = Double.finite 5 ∧
      Window.convert_coord (1.7 : Double) ((5 : ℕ) : Double) = some 9 ∧
      |(8 : ℚ) - 5 * (7656119366529843 / 2 ^ 52)| < |(9 : ℚ) - 5 * (7656119366529843 / 2 ^ 52)| := by
  refine ⟨double_literals_convert_coord.1, double_literals_convert_coord.2.1, ?_, ?_⟩
  · unfold Window.convert_coord
    rw [double_literals_convert_coord.1, double_literals_convert_coord.2.1,
      double_products_convert_coord.1]
    have hf : ⌊((17 / 2 : ℚ) + 1 / 2)⌋ = 9 := by
      rw [Int.floor_eq_iff]; norm_num
    have hr : std.round (17 / 2 : ℚ) = 9 := by
      unfold std.round
      rw [if_pos (by norm_num), hf]
    simp only [hr]
    decide
  · rw [abs_lt]
    constructor
    · rw [abs_of_pos (by norm_num)]
      norm_num
    · rw [abs_of_pos (by norm_num)]
      norm_num

/-- Claim C6, amended: `convert_coord(c)` returns `std::round` of the `double` product
`c × devicePixelRatio`, which is the exact product rounded to `double`: whenever that
product is finite and fits in `int32_t`, the result is an integer nearest to it (no
integer is closer), a tie being rounded away from zero; the `double` product differs from
the exact product by at most `2 ^ (-53)` of it in the normal range. With `devicePixelRatio`
2.0 and host coordinate 10.4 the result is 21. -/
theorem convert_coord_round_product (devicePixelRatio c : Double) (p : ℚ)
    (hp : c * devicePixelRatio = Double.finite p)
    (hlo : -2 ^ 31 ≤ p) (hhi : p ≤ 2 ^ 31 - 1) :
    (∃ r : ℤ, Window.convert_coord devicePixelRatio c = some r ∧
      r = std.round p ∧
      (∀ n : ℤ, |(r : ℚ) - p| ≤ |(n : ℚ) - p|) ∧
      (|(r : ℚ) - p| = 1 / 2 → |p| < |(r : ℚ)|)) ∧
      (∀ a b : ℚ, c = Double.finite a → devicePixelRatio = Double.finite b →
        Double.ofRat (a * b) = Double.finite p ∧
          ((2 : ℚ) ^ (-1022 : ℤ) ≤ |a * b| → |p - a * b| ≤ 2 ^ (-53 : ℤ) * |a * b|)) ∧
      Window.convert_coord (2.0 : Double) (10.4 : Double) = some 21 := by
  refine ⟨?_, ?_, ?_⟩
  · unfold Window.convert_coord
    rw [hp]
    simp only
    refine ⟨std.round p, ?_, rfl, ?_, ?_⟩
    · have hr : -2 ^ 31 ≤ std.round p ∧ std.round p ≤ 2 ^ 31 - 1 := by
        rcases le_or_lt 0 p with h | h
        · obtain ⟨h1, h2⟩ := (round_bounds p).1 h
          have a1 : ((-1 : ℤ) : ℚ) < (std.round p : ℚ) := by push_cast; linarith
          have a2 : (std.round p : ℚ) < ((2 ^ 31 : ℤ) : ℚ) := by push_cast; linarith
          have b1 : (-1 : ℤ) < std.round p := by exact_mod_cast a1
          have b2 : std.round p < 2 ^ 31 := by exact_mod_cast a2
          constructor <;> omega
        · obtain ⟨h1, h2⟩ := (round_bounds p).2 h
          have a1 : ((-2 ^ 31 - 1 : ℤ) : ℚ) < (std.round p : ℚ) := by push_cast; linarith
          have a2 : (std.round p : ℚ) < ((1 : ℤ) : ℚ) := by push_cast; linarith
          have b1 : (-2 ^ 31 - 1 : ℤ) < std.round p := by exact_mod_cast a1
          have b2 : std.round p < 1 := by exact_mod_cast a2
          constructor <;> omega
      unfold toInt32
      rw [if_pos hr]
    · intro n
      by_cases hn : n = std.round p
      · rw [hn]
      · have hr := round_abs_le p
        have h1 : (1 : ℤ) ≤ |n - std.round p| := Int.one_le_abs (sub_ne_zero.mpr hn)
        have h2 : (1 : ℚ) ≤ |(n : ℚ) - (std.round p : ℚ)| := by exact_mod_cast h1
        have tri := abs_sub_le (n : ℚ) p (std.round p : ℚ)
        rw [abs_sub_comm p (std.round p : ℚ)] at tri
        linarith
    · intro htie
      rcases le_or_lt 0 p with h | h
      · obtain ⟨h1, h2⟩ := (round_bounds p).1 h
        have hpos : (std.round p : ℚ) - p = 1 / 2 := by
          rcases abs_cases ((std.round p : ℚ) - p) with ⟨e, _⟩ | ⟨e, _⟩ <;> linarith
        rw [abs_of_nonneg h, abs_of_nonneg (by linarith)]
        linarith
      · obtain ⟨h1, h2⟩ := (round_bounds p).2 h
        have hneg : (std.round p : ℚ) - p = -(1 / 2) := by
          rcases abs_cases ((std.round p : ℚ) - p) with ⟨e, _⟩ | ⟨e, _⟩ <;> linarith
        rw [abs_of_neg h, abs_of_neg (by linarith)]
        linarith
  · intro a b ha hb
    rw [ha, hb] at hp
    have hof : Double.ofRat (a * b) = Double.finite p := hp
    exact ⟨hof, fun hn => Double.ofRat_rel_error (a * b) p hof hn⟩
  · unfold Window.convert_coord
    rw [double_literals_convert_coord.2.2.1, double_literals_convert_coord.2.2.2,
      double_products_convert_coord.2]
    have hf : ⌊((5854679515581645 / 2 ^ 48 : ℚ) + 1 / 2)⌋ = 21 := by
      rw [Int.floor_eq_iff]; norm_num
    have hr : std.round (5854679515581645 / 2 ^ 48 : ℚ) = 21 := by
      unfold std.round
      rw [if_pos (by norm_num), hf]
    simp only [hr]
    decide

theorem convert_coord_round_product_witness :
    ((Double.finite (5 / 4) * Double.finite 2 : Double) = Double.finite (5 / 2) ∧
      (-2 ^ 31 : ℚ) ≤ 5 / 2 ∧ (5 / 2 : ℚ) ≤ 2 ^ 31 - 1) ∧
    ∃ r : ℤ, Window.convert_coord (Double.finite 2) (Double.finite (5 / 4)) = some r ∧
      r = std.round (5 / 2) ∧
      (∀ n : ℤ, |(r : ℚ) - 5 / 2| ≤ |(n : ℚ) - 5 / 2|) ∧
      (|(r : ℚ) - 5 / 2| = 1 / 2 → |(5 / 2 : ℚ)| < |(r : ℚ)|) := by
  have hprod : (Double.finite (5 / 4) * Double.finite 2 : Double) = Double.finite (5 / 2) := by
    show Double.ofRat (5 / 4 * 2) = _
    rw [Double.ofRat_eq_self _ 1 (5 * 2 ^ 50) (by norm_num) (by norm_num)
      (by norm_num) (by norm_num) (by norm_num)]
    norm_num
  exact ⟨⟨hprod, by norm_num, by norm_num⟩,
    (convert_coord_round_product (Double.finite 2) (Double.finite (5 / 4)) (5 / 2) hprod
      (by norm_num) (by norm_num)).1⟩

end Engine

namespace Double

theorem neg_finite (a : ℚ) : (-(finite a) : Double) = finite (-a) := rfl

theorem finite_add_finite (a b : ℚ) : (finite a + finite b : Double) = ofRat (a + b) := rfl

theorem finite_sub_finite (a b : ℚ) : (finite a - finite b : Double) = ofRat (a + -b) := rfl

theorem finite_mul_finite (a b : ℚ) : (finite a * finite b : Double) = ofRat (a * b) := rfl

theorem exponent_ge (q : ℚ) : -1022 ≤ exponent q := le_max_right _ _

theorem abs_lt_zpow_exponent (q : ℚ) : |q| < (2 : ℚ) ^ (exponent q + 1) := by
  have h2 : ((2 : ℕ) : ℚ) = 2 := by norm_num
  have h := Int.lt_zpow_succ_log_self (b := 2) (by norm_num) |q|
  rw [h2] at h
  refine lt_of_lt_of_le h (zpow_le_zpow_right₀ (by norm_num) ?_)
  have := le_max_left (Int.log 2 |q|) (-1022)
  unfold exponent
  omega

theorem exponent_le_of_abs_lt (q : ℚ) (e : ℤ) (hq : q ≠ 0) (he : -1022 ≤ e)
    (h : |q| < (2 : ℚ) ^ (e + 1)) : exponent q ≤ e := by
  have hpos : 0 < |q| := abs_pos.mpr hq
  have h2 : ((2 : ℕ) : ℚ) = 2 := by norm_num
  have hlog : Int.log 2 |q| < e + 1 :=
    (Int.lt_zpow_iff_log_lt (b := 2) (by norm_num) hpos).mp (by rw [h2]; exact h)
  unfold exponent
  exact max_le (by omega) he

/-- A finite result of `ofRat` is the rounded multiple of the unit of the binade. -/
theorem eq_of_ofRat_eq_finite (q r : ℚ) (h : ofRat q = finite r) :
    r = (roundNearestEven (q / 2 ^ (exponent q - 52)) : ℚ) * 2 ^ (exponent q - 52) ∧
      |r| < 2 ^ 1024 := by
  unfold ofRat at h
  simp only at h
  split_ifs at h with h1 h2
  have hr := (Double.finite.inj h).symm
  refine ⟨hr, ?_⟩
  rw [hr, abs_lt]
  constructor
  · exact not_le.mp h2
  · exact not_le.mp h1

/-- A multiple of the unit of its binade below `2 ^ 1024` is a `double`. -/
theorem ofRat_eq_self_of_int (q : ℚ) (N : ℤ) (hN : q / 2 ^ (exponent q - 52) = (N : ℚ))
    (hfin : |q| < 2 ^ 1024) : ofRat q = finite q := by
  have hpow : (2 : ℚ) ^ (exponent q - 52) ≠ 0 := by positivity
  have hq : (N : ℚ) * 2 ^ (exponent q - 52) = q := by
    rw [← hN]
    field_simp
  obtain ⟨h1, h2⟩ := abs_lt.mp hfin
  unfold ofRat
  simp only [hN, roundNearestEven_intCast, hq]
  rw [if_neg (not_le.mpr h2), if_neg (not_le.mpr h1)]

theorem ofRat_of_mul_zpow (q : ℚ) (N k : ℤ) (hq : q = (N : ℚ) * 2 ^ k)
    (hk : exponent q - 52 ≤ k) (hfin : |q| < 2 ^ 1024) : ofRat q = finite q := by
  obtain ⟨n, hn⟩ := Int.eq_ofNat_of_zero_le (show 0 ≤ k - (exponent q - 52) by omega)
  refine ofRat_eq_self_of_int q (N * 2 ^ n) ?_ hfin
  have hk2 : k = (exponent q - 52) + (n : ℤ) := by omega
  have hpow : (2 : ℚ) ^ (exponent q - 52) ≠ 0 := by positivity
  have hsplit : (2 : ℚ) ^ k = 2 ^ (exponent q - 52) * 2 ^ n := by
    conv_lhs => rw [hk2]
    rw [zpow_add₀ (by norm_num), zpow_natCast]
  have hqq : q = (N : ℚ) * (2 ^ (exponent q - 52) * 2 ^ n) := by
    rw [← hsplit]
    exact hq
  generalize exponent q - 52 = u at hqq hpow
  rw [hqq]
  push_cast
  field_simp
  ring

/-- An integer below `2 ^ 53` in absolute value is a `double`. -/
theorem ofRat_intCast (z : ℤ) (h : |(z : ℚ)| < 2 ^ 53) : ofRat (z : ℚ) = finite (z : ℚ) := by
  by_cases hz : (z : ℚ) = 0
  · rw [hz]
    exact ofRat_zero
  · refine ofRat_of_mul_zpow (z : ℚ) z 0 (by simp) ?_ (lt_trans h (by norm_num))
    have := exponent_le_of_abs_lt (z : ℚ) 52 hz (by norm_num) (by
      refine lt_of_lt_of_le h ?_
      norm_num)
    omega

/-- Rounding is idempotent: a finite result of `ofRat` is a `double`. -/
theorem ofRat_idem (q r : ℚ) (h : ofRat q = finite r) : ofRat r = finite r := by
  obtain ⟨hr, hfin⟩ := eq_of_ofRat_eq_finite q r h
  by_cases hr0 : r = 0
  · rw [hr0]
    exact ofRat_zero
  have hpos : (0 : ℚ) < 2 ^ (exponent q - 52) := by positivity
  have hq := abs_lt_zpow_exponent q
  have hx : |q / 2 ^ (exponent q - 52)| < 2 ^ 53 := by
    rw [abs_div, abs_of_pos hpos, div_lt_iff₀ hpos]
    have : (2 : ℚ) ^ 53 * 2 ^ (exponent q - 52) = 2 ^ (exponent q + 1) := by
      rw [show exponent q + 1 = (53 : ℤ) + (exponent q - 52) by ring,
        zpow_add₀ (by norm_num)]
      norm_num
    rw [this]
    exact hq
  have herr := abs_roundNearestEven_sub_le (q / 2 ^ (exponent q - 52))
  set m := roundNearestEven (q / 2 ^ (exponent q - 52)) with hm
  have hmle : |(m : ℚ)| < 2 ^ 53 + 1 := by
    have tri := abs_sub_abs_le_abs_sub (m : ℚ) (q / 2 ^ (exponent q - 52))
    linarith
  have hmz : |m| < 2 ^ 53 + 1 := by exact_mod_cast hmle
  have hexp := exponent_ge q
  rcases lt_or_eq_of_le (show |m| ≤ 2 ^ 53 by omega) with hlt | heq
  · refine ofRat_of_mul_zpow r m (exponent q - 52) hr ?_ hfin
    have hltq : |(m : ℚ)| < 2 ^ 53 := by exact_mod_cast hlt
    have hrlt : |r| < (2 : ℚ) ^ (exponent q + 1) := by
      rw [hr, abs_mul, abs_of_pos hpos,
        show exponent q + 1 = (53 : ℤ) + (exponent q - 52) by ring, zpow_add₀ (by norm_num)]
      have h53 : (2 : ℚ) ^ (53 : ℤ) = 2 ^ 53 := by norm_num
      rw [h53]
      exact mul_lt_mul_of_pos_right hltq hpos
    have := exponent_le_of_abs_lt r (exponent q) hr0 hexp hrlt
    omega
  · have hpow : (2 : ℚ) ^ (exponent q + 1) = 2 ^ 53 * 2 ^ (exponent q - 52) := by
      rw [show exponent q + 1 = (53 : ℤ) + (exponent q - 52) by ring, zpow_add₀ (by norm_num)]
      norm_num
    have hrabs : |r| = (2 : ℚ) ^ (exponent q + 1) := by
      rw [hr, abs_mul, abs_of_pos hpos, hpow]
      have : |(m : ℚ)| = 2 ^ 53 := by exact_mod_cast heq
      rw [this]
    have hle : exponent r ≤ exponent q + 1 :=
      exponent_le_of_abs_lt r (exponent q + 1) hr0 (by omega) (by
        rw [hrabs]
        exact zpow_lt_zpow_right₀ (by norm_num) (by omega))
    rcases abs_cases r with ⟨ha, _⟩ | ⟨ha, _⟩
    · refine ofRat_of_mul_zpow r 1 (exponent q + 1) ?_ (by omega) hfin
      rw [← hrabs, ha]
      simp
    · refine ofRat_of_mul_zpow r (-1) (exponent q + 1) ?_ (by omega) hfin
      rw [← hrabs, ha]
      simp

/-- Doubling a `double` below `2 ^ 1023` in absolute value is exact. -/
theorem ofRat_add_self (a : ℚ) (h : ofRat a = finite a) (hlt : |a| < 2 ^ 1023) :
    ofRat (a + a) = finite (a + a) := by
  by_cases ha0 : a = 0
  · rw [ha0]
    simp only [add_zero]
    exact ofRat_zero
  obtain ⟨hr, -⟩ := eq_of_ofRat_eq_finite a a h
  have hfin : |a + a| < 2 ^ 1024 := by
    have : a + a = 2 * a := by ring
    rw [this, abs_mul, abs_of_pos (by norm_num : (0 : ℚ) < 2)]
    have : (2 : ℚ) ^ 1024 = 2 * 2 ^ 1023 := by norm_num
    linarith
  refine ofRat_of_mul_zpow (a + a) (roundNearestEven (a / 2 ^ (exponent a - 52)))
    (exponent a - 52 + 1) ?_ ?_ hfin
  · rw [zpow_add_one₀ (by norm_num)]
    linarith
  · have hA := abs_lt_zpow_exponent a
    have hle := exponent_le_of_abs_lt (a + a) (exponent a + 1) (by
        intro hc
        apply ha0
        linarith) (by have := exponent_ge a; omega) (by
      have h1 : a + a = 2 * a := by ring
      rw [h1, abs_mul, abs_of_pos (by norm_num : (0 : ℚ) < 2),
        zpow_add_one₀ (by norm_num : (2 : ℚ) ≠ 0) (exponent a + 1)]
      linarith)
    omega

/-- The value of `ofRat` at a rational of a normal binade that is not a tie. -/
theorem ofRat_eval (q : ℚ) (e m : ℤ) (he : -1022 ≤ e) (hlo : (2 : ℚ) ^ e ≤ |q|)
    (hhi : |q| < (2 : ℚ) ^ (e + 1)) (hm : |q / 2 ^ (e - 52) - (m : ℚ)| < 1 / 2)
    (hfin : |(m : ℚ) * 2 ^ (e - 52)| < 2 ^ 1024) :
    ofRat q = finite ((m : ℚ) * 2 ^ (e - 52)) := by
  have hexp : exponent q = e := exponent_eq_of_bounds q e he hlo hhi
  obtain ⟨h1, h2⟩ := abs_lt.mp hfin
  unfold ofRat
  simp only [hexp, roundNearestEven_of_abs_sub_lt _ m hm]
  rw [if_neg (not_le.mpr h2), if_neg (not_le.mpr h1)]

/-- The value of `ofRat` at a tie: the even neighbour. -/
theorem ofRat_eval_tie (q : ℚ) (e k : ℤ) (he : -1022 ≤ e) (hlo : (2 : ℚ) ^ e ≤ |q|)
    (hhi : |q| < (2 : ℚ) ^ (e + 1)) (hk : q / 2 ^ (e - 52) = (k : ℚ) + 1 / 2)
    (hfin : |((if k % 2 = 0 then k else k + 1 : ℤ) : ℚ) * 2 ^ (e - 52)| < 2 ^ 1024) :
    ofRat q = finite (((if k % 2 = 0 then k else k + 1 : ℤ) : ℚ) * 2 ^ (e - 52)) := by
  have hexp : exponent q = e := exponent_eq_of_bounds q e he hlo hhi
  obtain ⟨h1, h2⟩ := abs_lt.mp hfin
  unfold ofRat
  simp only [hexp, hk, roundNearestEven_tie]
  rw [if_neg (not_le.mpr h2), if_neg (not_le.mpr h1)]

/-- The value of `sqrtRat` at a rational whose scaled value is a perfect square. -/
theorem sqrtRat_eq (q : ℚ) (e : ℤ) (f : ℕ) (hlo : (4 : ℚ) ^ e ≤ q) (hhi : q < (4 : ℚ) ^ (e + 1))
    (hf : q / 4 ^ (e - 52) = ((f * f : ℕ) : ℚ)) : sqrtRat q = (f : ℚ) * 2 ^ (e - 52) := by
  have hpos : 0 < q := lt_of_lt_of_le (by positivity) hlo
  have h4 : ((4 : ℕ) : ℚ) = 4 := by norm_num
  have hlog : Int.log 4 q = e := by
    apply le_antisymm
    · have := (Int.lt_zpow_iff_log_lt (b := 4) (by norm_num) hpos (x := e + 1)).mp
        (by rw [h4]; exact hhi)
      omega
    · exact (Int.zpow_le_iff_le_log (b := 4) (by norm_num) hpos).mp (by rw [h4]; exact hlo)
  unfold sqrtRat
  simp only [hlog, hf, Nat.floor_natCast, Nat.sqrt_eq]
  rw [if_pos (by
    push_cast
    have : (0 : ℚ) ≤ f := Nat.cast_nonneg f
    nlinarith)]

end Double

namespace Double

theorem roundNearestEven_neg (q : ℚ) : roundNearestEven (-q) = -roundNearestEven q := by
  have h1 := Int.floor_le q
  have h2 := Int.lt_floor_add_one q
  rcases lt_trichotomy (q - ⌊q⌋) (1 / 2) with h | h | h
  · have hq : roundNearestEven q = ⌊q⌋ := by
      unfold roundNearestEven
      rw [if_pos h]
    rw [hq]
    apply roundNearestEven_of_abs_sub_lt
    rw [abs_lt]
    push_cast
    constructor <;> linarith
  · have hq : q = (⌊q⌋ : ℚ) + 1 / 2 := by linarith
    have hn : -q = ((-⌊q⌋ - 1 : ℤ) : ℚ) + 1 / 2 := by
      push_cast
      linarith
    generalize ⌊q⌋ = k at hq hn
    rw [hn, roundNearestEven_tie, hq, roundNearestEven_tie]
    split_ifs <;> omega
  · have hq : roundNearestEven q = ⌊q⌋ + 1 := by
      unfold roundNearestEven
      rw [if_neg (by linarith), if_pos h]
    rw [hq]
    apply roundNearestEven_of_abs_sub_lt
    rw [abs_lt]
    push_cast
    constructor <;> linarith

theorem exponent_neg (q : ℚ) : exponent (-q) = exponent q := by
  unfold exponent
  rw [abs_neg]

/-- Rounding commutes with the change of sign. -/
theorem ofRat_neg (q : ℚ) : ofRat (-q) = -(ofRat q) := by
  unfold ofRat
  simp only [exponent_neg, neg_div, roundNearestEven_neg, Int.cast_neg, neg_mul]
  generalize (roundNearestEven (q / 2 ^ (exponent q - 52)) : ℚ) * 2 ^ (exponent q - 52) = r
  have hpow : (0 : ℚ) < 2 ^ 1024 := by positivity
  by_cases ha : (2 : ℚ) ^ 1024 ≤ r
  · rw [if_neg (by linarith), if_pos (by linarith), if_pos ha]
    rfl
  · by_cases hb : r ≤ -2 ^ 1024
    · rw [if_pos (by linarith), if_neg ha, if_pos hb]
      rfl
    · rw [if_neg (by linarith), if_neg (by linarith), if_neg ha, if_neg hb]
      rfl

/-- The rounding error of `ofRat`, the subnormal range included. -/
theorem ofRat_error (q r : ℚ) (h : ofRat q = finite r) :
    |r - q| ≤ 2 ^ (-53 : ℤ) * |q| + 2 ^ (-1075 : ℤ) := by
  rcases le_or_lt ((2 : ℚ) ^ (-1022 : ℤ)) |q| with hn | hn
  · have := ofRat_rel_error q r h hn
    have hp : (0 : ℚ) ≤ 2 ^ (-1075 : ℤ) := by positivity
    linarith
  · by_cases hq : q = 0
    · rw [hq, ofRat_zero] at h
      rw [← Double.finite.inj h, hq]
      simp
      positivity
    · have hexp := exponent_eq_of_lt q hq hn
      have herr := ofRat_abs_error q r h
      rw [hexp] at herr
      have hp : (0 : ℚ) ≤ 2 ^ (-53 : ℤ) * |q| := by positivity
      have he : (-1022 : ℤ) - 53 = -1075 := by norm_num
      rw [he] at herr
      linarith

theorem sqrt_finite_zero : sqrt (finite 0) = finite 0 := by
  simp [sqrt]

theorem sqrt_finite_pos (a : ℚ) (h : 0 < a) : sqrt (finite a) = finite (sqrtRat a) := by
  show (if a < 0 then nan else if a = 0 then finite 0 else finite (sqrtRat a)) = _
  rw [if_neg (not_lt.mpr (le_of_lt h)), if_neg (ne_of_gt h)]

/-- A rational equal to an integer below `2 ^ 53` in absolute value is a `double`. -/
theorem ofRat_eq_of_int (q : ℚ) (z : ℤ) (hq : q = (z : ℚ)) (h : |q| < 2 ^ 53) :
    ofRat q = finite q := by
  rw [hq] at h ⊢
  exact ofRat_intCast z h

/-- The literals of `addView`, as `double`s. -/
theorem literals :
    (0.5 : Double) = finite (1 / 2) ∧ (0.6 : Double) = finite (5404319552844595 / 2 ^ 53) ∧
      (0.001 : Double) = finite (1152921504606847 / 2 ^ 60) ∧
      (0.0 : Double) = finite 0 ∧ (3.5 : Double) = finite (7 / 2) ∧
      (4.5 : Double) = finite (9 / 2) ∧ (1.0 : Double) = finite 1 := by
  refine ⟨?_, ?_, ?_, ?_, ?_, ?_, ?_⟩
  · show ofRat (0.5 : ℚ) = _
    rw [ofRat_of_mul_zpow (0.5 : ℚ) 1 (-1) (by norm_num) (by
      have := exponent_eq_of_bounds (0.5 : ℚ) (-1) (by norm_num) (by norm_num [abs_of_pos])
        (by norm_num [abs_of_pos])
      omega) (by norm_num [abs_of_pos])]
    norm_num
  · show ofRat (0.6 : ℚ) = _
    rw [ofRat_eq_finite (0.6 : ℚ) (-1) 5404319552844595 (by norm_num) (by norm_num)
      (by norm_num)
      (roundNearestEven_of_abs_sub_lt _ _ (by rw [abs_lt]; constructor <;> norm_num))
      (by norm_num)]
    norm_num
  · show ofRat (0.001 : ℚ) = _
    rw [ofRat_eq_finite (0.001 : ℚ) (-10) 4611686018427388 (by norm_num) (by norm_num)
      (by norm_num)
      (roundNearestEven_of_abs_sub_lt _ _ (by rw [abs_lt]; constructor <;> norm_num))
      (by norm_num)]
    norm_num
  · show ofRat (0.0 : ℚ) = _
    rw [show (0.0 : ℚ) = 0 by norm_num]
    exact ofRat_zero
  · show ofRat (3.5 : ℚ) = _
    rw [ofRat_of_mul_zpow (3.5 : ℚ) 7 (-1) (by norm_num) (by
      have := exponent_eq_of_bounds (3.5 : ℚ) 1 (by norm_num) (by norm_num [abs_of_pos])
        (by norm_num [abs_of_pos])
      omega) (by norm_num [abs_of_pos])]
    norm_num
  · show ofRat (4.5 : ℚ) = _
    rw [ofRat_of_mul_zpow (4.5 : ℚ) 9 (-1) (by norm_num) (by
      have := exponent_eq_of_bounds (4.5 : ℚ) 2 (by norm_num) (by norm_num [abs_of_pos])
        (by norm_num [abs_of_pos])
      omega) (by norm_num [abs_of_pos])]
    norm_num
  · show ofRat (1.0 : ℚ) = _
    rw [ofRat_eq_of_int (1.0 : ℚ) 1 (by norm_num) (by norm_num [abs_of_pos])]
    norm_num

/-- Adding `0.0` to a product with `0.5` changes nothing. -/
theorem mul_half_add_zero (x : Double) :
    x * (0.5 : Double) + (0.0 : Double) = x * (0.5 : Double) := by
  rw [literals.1, literals.2.2.2.1]
  cases x with
  | finite a =>
    rw [finite_mul_finite]
    cases h : ofRat (a * (1 / 2)) with
    | finite r =>
      rw [finite_add_finite, add_zero]
      rw [ofRat_idem _ r h]
    | posInf => rfl
    | negInf => rfl
    | nan => rfl
  | posInf =>
    have h : (posInf * finite (1 / 2) : Double) = posInf := by
      show mul posInf (finite (1 / 2)) = posInf
      simp [mul]
    rw [h]
    rfl
  | negInf =>
    have h : (negInf * finite (1 / 2) : Double) = negInf := by
      show mul negInf (finite (1 / 2)) = negInf
      simp [mul]
    rw [h]
    rfl
  | nan => rfl

end Double

/-! ## The camera of `MultiViewArea::addView` in `double` arithmetic -/

namespace Main

/-- The radius `addView` derives from bounds that are a single finite point. -/
theorem radius_of_point (a b c : ℚ) :
    vsg.length Double.sqrt
        (vsg.dvec3.mk (Double.finite a) (Double.finite b) (Double.finite c) -
          vsg.dvec3.mk (Double.finite a) (Double.finite b) (Double.finite c)) * (0.6 : Double)
      = Double.finite 0 := by
  rw [Double.literals.2.1]
  simp only [dvec3_sub_mk, vsg.length, Double.finite_sub_finite, add_neg_cancel,
    Double.ofRat_zero, Double.finite_mul_finite, mul_zero, zero_mul, Double.finite_add_finite,
    add_zero, Double.sqrt_finite_zero]

theorem neg_zero_mul_literal : -(Double.finite 0) * (3.5 : Double) = (0.0 : Double) := by
  rw [Double.literals.2.2.2.2.1, Double.literals.2.2.2.1, Double.neg_finite,
    Double.finite_mul_finite]
  simp only [neg_zero, zero_mul, Double.ofRat_zero]

theorem literal_mul_zero :
    (0.001 : Double) * Double.finite 0 = 0 ∧ Double.finite 0 * (4.5 : Double) = 0 := by
  rw [Double.literals.2.2.1, Double.literals.2.2.2.2.2.1]
  simp only [Double.finite_mul_finite, mul_zero, zero_mul, Double.ofRat_zero]
  exact ⟨rfl, rfl⟩

/-- The midpoint of a `double` below `2 ^ 1023` in absolute value with itself. -/
theorem midpoint_self (a : ℚ) (h : Double.ofRat a = Double.finite a) (hlt : |a| < 2 ^ 1023) :
    (Double.finite a + Double.finite a) * (0.5 : Double) = Double.finite a := by
  rw [Double.literals.1, Double.finite_add_finite, Double.ofRat_add_self a h hlt,
    Double.finite_mul_finite, show (a + a) * (1 / 2) = a by ring, h]

/-- The sum `2 ^ 1023 + 2 ^ 1023` overflows. -/
theorem ofRat_overflow : Double.ofRat (2 ^ 1023 + 2 ^ 1023) = Double.posInf := by
  have hexp : Double.exponent (2 ^ 1023 + 2 ^ 1023) = 1024 :=
    Double.exponent_eq_of_bounds _ 1024 (by norm_num) (by norm_num [abs_of_pos])
      (by norm_num [abs_of_pos])
  have hq : ((2 : ℚ) ^ 1023 + 2 ^ 1023) / 2 ^ ((1024 : ℤ) - 52) = ((2 ^ 52 : ℤ) : ℚ) := by
    norm_num
  unfold Double.ofRat
  simp only [hexp, hq, Double.roundNearestEven_intCast]
  rw [if_pos (by norm_num)]

theorem posInf_mul_half : Double.posInf * (0.5 : Double) = Double.posInf := by
  rw [Double.literals.1]
  show Double.mul Double.posInf (Double.finite (1 / 2)) = Double.posInf
  simp [Double.mul]

/-- Claim C10, as stated, fails. For the degenerate bounds `(2 ^ 1023, 2, 3)` the sum
`min.x + max.x` overflows: the look-at centre and the eye have `x` coordinate `+∞` and are
not `bounds.min`. For the degenerate bounds `(+∞, 0, 0)` the difference `max.x - min.x` is
a NaN and so are the radius and the near and far distances of the projection. -/
theorem addView_degenerate_bounds_overflow :
    (largePointScene.bounds.min = largePointScene.bounds.max ∧
      largePointScene.bounds.min.x = Double.finite (2 ^ 1023) ∧
      ∃ (camera : vsg.Camera Double) (window : Engine.Window),
        (MultiViewArea.addView Double.sqrt doubleArea 1 (some 7) largePointScene
            "First Window").1.viewer.eventHandlers
          = doubleArea.viewer.eventHandlers ++
            [EventHandler.trackball
              { camera := camera, ellipsoidModel := largePointScene.ellipsoidModel,
                windows := [window] }] ∧
        camera.viewMatrix.center.x = Double.posInf ∧
        camera.viewMatrix.eye.x = Double.posInf ∧
        camera.viewMatrix.center ≠ largePointScene.bounds.min ∧
        camera.viewMatrix.eye ≠ largePointScene.bounds.min) ∧
    (infinitePointScene.bounds.min = infinitePointScene.bounds.max ∧
      vsg.length Double.sqrt (infinitePointScene.bounds.max - infinitePointScene.bounds.min)
          * (0.6 : Double) = Double.nan ∧
      Double.nan ≠ (0 : Double) ∧
      ∃ (camera : vsg.Camera Double) (window : Engine.Window),
        (MultiViewArea.addView Double.sqrt doubleArea 1 (some 7) infinitePointScene
            "First Window").1.viewer.eventHandlers
          = doubleArea.viewer.eventHandlers ++
            [EventHandler.trackball
              { camera := camera, ellipsoidModel := infinitePointScene.ellipsoidModel,
                windows := [window] }] ∧
        camera.projectionMatrix = vsg.ProjectionMatrix.Perspective 30.0
          ((doubleArea.traits.width : Double) / (doubleArea.traits.height : Double))
          Double.nan Double.nan) := by
  constructor
  · obtain ⟨camera, window, -, hview, -, -, heh, -⟩ :=
      addView_viewer Double.sqrt doubleArea 1 (some 7) largePointScene "First Window"
    have hcx : camera.viewMatrix.center.x = Double.posInf := by
      rw [hview]
      simp only [largePointScene, dvec3_add_mk, dvec3_mul_mk, Double.finite_add_finite,
        ofRat_overflow, posInf_mul_half]
    have hex : camera.viewMatrix.eye.x = Double.posInf := by
      rw [hview]
      simp only [largePointScene, dvec3_add_mk, dvec3_mul_mk, Double.finite_add_finite,
        ofRat_overflow, posInf_mul_half, Double.literals.2.2.2.1]
      rfl
    refine ⟨rfl, rfl, camera, window, heh, hcx, hex, ?_, ?_⟩
    · intro h
      have hx := congrArg vsg.dvec3.x h
      rw [hcx] at hx
      exact Double.noConfusion hx
    · intro h
      have hx := congrArg vsg.dvec3.x h
      rw [hex] at hx
      exact Double.noConfusion hx
  · obtain ⟨camera, window, -, -, hproj, -, heh, -⟩ :=
      addView_viewer Double.sqrt doubleArea 1 (some 7) infinitePointScene "First Window"
    have hrad : vsg.length Double.sqrt
        (infinitePointScene.bounds.max - infinitePointScene.bounds.min) * (0.6 : Double)
          = Double.nan := by
      have hsub : (Double.posInf - Double.posInf : Double) = Double.nan := rfl
      simp only [infinitePointScene, dvec3_sub_mk, vsg.length, Double.finite_sub_finite,
        neg_zero, add_zero, Double.ofRat_zero, Double.finite_mul_finite, mul_zero,
        Double.literals.2.1, hsub]
      rfl
    refine ⟨rfl, hrad, ?_, camera, window, heh, ?_⟩
    · intro h
      exact Double.noConfusion h
    · rw [hproj, hrad]
      have h1 : (0.001 : Double) * Double.nan = Double.nan := by
        rw [Double.literals.2.2.1]
        rfl
      have h2 : Double.nan * (4.5 : Double) = Double.nan := by
        rw [Double.literals.2.2.2.2.2.1]
        rfl
      simp only [infinitePointScene, h1, h2]

/-- Claim C10, amended: for every scene whose computed bounds are degenerate
(`bounds.min = bounds.max`) with finite coordinates, `addView` derives radius 0 and builds
a `LookAt` whose eye equals its look-at centre, the `double` midpoint
`(bounds.min + bounds.max) × 0.5`; that centre is `bounds.min` when every coordinate is a
`double` below `2 ^ 1023` in absolute value (the sum of a larger one with itself
overflows). The camera is still constructed and registered, with near and far distance 0
when there is no ellipsoid model, the view record is still appended and the index is
returned. -/
theorem addView_degenerate_bounds (self : MultiViewArea Double) (newWindow : Nat)
    (created : Option vsg.Device) (vsg_scene : vsg.Node Double) (title : String)
    (a b c : ℚ)
    (hmin : vsg_scene.bounds.min
      = vsg.dvec3.mk (Double.finite a) (Double.finite b) (Double.finite c))
    (hdeg : vsg_scene.bounds.min = vsg_scene.bounds.max) :
    vsg.length Double.sqrt (vsg_scene.bounds.max - vsg_scene.bounds.min) * (0.6 : Double) = 0 ∧
      ∃ (camera : vsg.Camera Double) (window : Engine.Window),
        camera.viewMatrix.eye = camera.viewMatrix.center ∧
        camera.viewMatrix.center
          = (vsg_scene.bounds.min + vsg_scene.bounds.max) * (0.5 : Double) ∧
        ((Double.ofRat a = Double.finite a ∧ |a| < 2 ^ 1023) →
          (Double.ofRat b = Double.finite b ∧ |b| < 2 ^ 1023) →
          (Double.ofRat c = Double.finite c ∧ |c| < 2 ^ 1023) →
          camera.viewMatrix.center = vsg_scene.bounds.min ∧
            camera.viewMatrix.eye = vsg_scene.bounds.min) ∧
        (vsg_scene.ellipsoidModel = none →
          camera.projectionMatrix = vsg.ProjectionMatrix.Perspective 30.0
            ((self.traits.width : Double) / (self.traits.height : Double)) 0 0) ∧
        window.addr = newWindow ∧
        (MultiViewArea.addView Double.sqrt self newWindow created vsg_scene
            title).1.viewer.eventHandlers
          = self.viewer.eventHandlers ++
            [EventHandler.trackball
              { camera := camera, ellipsoidModel := vsg_scene.ellipsoidModel,
                windows := [window] }] ∧
        (MultiViewArea.addView Double.sqrt self newWindow created vsg_scene
            title).1.viewer.recordAndSubmitTasks
          = self.viewer.recordAndSubmitTasks ++
            [[{ window := window, camera := camera, scene := vsg_scene }]] ∧
        (MultiViewArea.addView Double.sqrt self newWindow created vsg_scene title).1.views
          = self.views ++ [{ window := window }] ∧
        (MultiViewArea.addView Double.sqrt self newWindow created vsg_scene title).2
          = self.views.length := by
  obtain ⟨camera, window, hw, hview, hproj, -, heh, htasks⟩ :=
    addView_viewer Double.sqrt self newWindow created vsg_scene title
  have hrad : vsg.length Double.sqrt (vsg_scene.bounds.max - vsg_scene.bounds.min)
      * (0.6 : Double) = Double.finite 0 := by
    rw [← hdeg, hmin]
    exact radius_of_point a b c
  have hcen : camera.viewMatrix.center
      = (vsg_scene.bounds.min + vsg_scene.bounds.max) * (0.5 : Double) := by
    rw [hview]
  have heye : camera.viewMatrix.eye = camera.viewMatrix.center := by
    rw [hview]
    simp only [hrad, neg_zero_mul_literal]
    rw [← hdeg, hmin]
    simp only [dvec3_add_mk, dvec3_mul_mk, Double.mul_half_add_zero]
  have hmid : (Double.ofRat a = Double.finite a ∧ |a| < 2 ^ 1023) →
      (Double.ofRat b = Double.finite b ∧ |b| < 2 ^ 1023) →
      (Double.ofRat c = Double.finite c ∧ |c| < 2 ^ 1023) →
      camera.viewMatrix.center = vsg_scene.bounds.min := by
    intro ha hb hc
    rw [hcen, ← hdeg, hmin]
    simp only [dvec3_add_mk, dvec3_mul_mk, midpoint_self a ha.1 ha.2, midpoint_self b hb.1 hb.2,
      midpoint_self c hc.1 hc.2]
  refine ⟨hrad, camera, window, heye, hcen,
    fun ha hb hc => ⟨hmid ha hb hc, heye.trans (hmid ha hb hc)⟩, ?_, ?_, heh, htasks, ?_,
    addView_index Double.sqrt self newWindow created vsg_scene title⟩
  · intro hem
    rw [hproj, hem]
    simp only [hrad, literal_mul_zero.1, literal_mul_zero.2]
  · rw [hw]
  · rw [addView_views, hw]

theorem addView_degenerate_bounds_witness :
    (doublePointScene.bounds.min
        = vsg.dvec3.mk (Double.finite 1) (Double.finite 2) (Double.finite 3) ∧
      doublePointScene.bounds.min = doublePointScene.bounds.max) ∧
    vsg.length Double.sqrt (doublePointScene.bounds.max - doublePointScene.bounds.min)
        * (0.6 : Double) = 0 ∧
      ∃ (camera : vsg.Camera Double) (window : Engine.Window),
        camera.viewMatrix.eye = camera.viewMatrix.center ∧
        camera.viewMatrix.center = doublePointScene.bounds.min ∧
        camera.projectionMatrix = vsg.ProjectionMatrix.Perspective 30.0
          ((doubleArea.traits.width : Double) / (doubleArea.traits.height : Double)) 0 0 ∧
        window.addr = 1 ∧
        (MultiViewArea.addView Double.sqrt doubleArea 1 (some 7) doublePointScene
            "First Window").1.viewer.eventHandlers
          = doubleArea.viewer.eventHandlers ++
            [EventHandler.trackball
              { camera := camera, ellipsoidModel := doublePointScene.ellipsoidModel,
                windows := [window] }] ∧
        (MultiViewArea.addView Double.sqrt doubleArea 1 (some 7) doublePointScene
            "First Window").1.views
          = doubleArea.views ++ [{ window := window }] ∧
        (MultiViewArea.addView Double.sqrt doubleArea 1 (some 7) doublePointScene
            "First Window").2 = doubleArea.views.length := by
  obtain ⟨hrad, camera, window, heye, -, hmid, hproj, hw, heh, -, hviews, hidx⟩ :=
    addView_degenerate_bounds doubleArea 1 (some 7) doublePointScene "First Window" 1 2 3
      rfl rfl
  have h1 : Double.ofRat 1 = Double.finite 1 ∧ |(1 : ℚ)| < 2 ^ 1023 :=
    ⟨Double.ofRat_eq_of_int 1 1 (by norm_num) (by norm_num [abs_of_pos]),
      by norm_num [abs_of_pos]⟩
  have h2 : Double.ofRat 2 = Double.finite 2 ∧ |(2 : ℚ)| < 2 ^ 1023 :=
    ⟨Double.ofRat_eq_of_int 2 2 (by norm_num) (by norm_num [abs_of_pos]),
      by norm_num [abs_of_pos]⟩
  have h3 : Double.ofRat 3 = Double.finite 3 ∧ |(3 : ℚ)| < 2 ^ 1023 :=
    ⟨Double.ofRat_eq_of_int 3 3 (by norm_num) (by norm_num [abs_of_pos]),
      by norm_num [abs_of_pos]⟩
  exact ⟨⟨rfl, rfl⟩, hrad, camera, window, heye, (hmid h1 h2 h3).1, hproj rfl, hw, heh,
    hviews, hidx⟩

end Main

namespace Main

/-- The values `addView` computes for `offsetBoxScene`: the diagonal length, the radius,
the centre, the product `radius * 3.5` and the `y` coordinate of the eye. -/
theorem offsetBoxScene_values :
    vsg.length Double.sqrt (offsetBoxScene.bounds.max - offsetBoxScene.bounds.min)
        = Double.finite 3 ∧
      vsg.length Double.sqrt (offsetBoxScene.bounds.max - offsetBoxScene.bounds.min)
          * (0.6 : Double) = Double.finite (2026619832316723 / 2 ^ 50) ∧
      (offsetBoxScene.bounds.min + offsetBoxScene.bounds.max) * (0.5 : Double)
        = vsg.dvec3.mk (Double.finite (1 / 2)) (Double.finite 1000001) (Double.finite 1) ∧
      Double.finite (2026619832316723 / 2 ^ 50) * (3.5 : Double)
        = Double.finite (3546584706554265 / 2 ^ 49) ∧
      Double.ofRat (1000001 - 3546584706554265 / 2 ^ 49)
        = Double.finite (4294944532673331 / 2 ^ 32) := by
  have i0 : Double.ofRat 0 = Double.finite 0 := Double.ofRat_zero
  have i1 : Double.ofRat 1 = Double.finite 1 :=
    Double.ofRat_eq_of_int 1 1 (by norm_num) (by norm_num [abs_of_pos])
  have i2 : Double.ofRat 2 = Double.finite 2 :=
    Double.ofRat_eq_of_int 2 2 (by norm_num) (by norm_num [abs_of_pos])
  have i4 : Double.ofRat 4 = Double.finite 4 :=
    Double.ofRat_eq_of_int 4 4 (by norm_num) (by norm_num [abs_of_pos])
  have i5 : Double.ofRat 5 = Double.finite 5 :=
    Double.ofRat_eq_of_int 5 5 (by norm_num) (by norm_num [abs_of_pos])
  have i9 : Double.ofRat 9 = Double.finite 9 :=
    Double.ofRat_eq_of_int 9 9 (by norm_num) (by norm_num [abs_of_pos])
  have im : Double.ofRat 2000002 = Double.finite 2000002 :=
    Double.ofRat_eq_of_int 2000002 2000002 (by norm_num) (by norm_num [abs_of_pos])
  have ic : Double.ofRat 1000001 = Double.finite 1000001 :=
    Double.ofRat_eq_of_int 1000001 1000001 (by norm_num) (by norm_num [abs_of_pos])
  have ih : Double.ofRat (1 / 2) = Double.finite (1 / 2) := by
    have h : Double.ofRat (0.5 : ℚ) = Double.finite (1 / 2) := Double.literals.1
    have e : (0.5 : ℚ) = 1 / 2 := by norm_num
    rwa [e] at h
  have hs : Double.sqrt (Double.finite 9) = Double.finite 3 := by
    rw [Double.sqrt_finite_pos 9 (by norm_num),
      Double.sqrtRat_eq 9 1 (3 * 2 ^ 51) (by norm_num) (by norm_num) (by norm_num)]
    norm_num
  have hlen : vsg.length Double.sqrt
      (offsetBoxScene.bounds.max - offsetBoxScene.bounds.min) = Double.finite 3 := by
    simp only [offsetBoxScene, dvec3_sub_mk, vsg.length, Double.finite_sub_finite]
    norm_num [Double.finite_mul_finite, Double.finite_add_finite, i1, i2, i4, i5, i9, hs]
  have hrad : Double.finite 3 * (0.6 : Double)
      = Double.finite (2026619832316723 / 2 ^ 50) := by
    rw [Double.literals.2.1, Double.finite_mul_finite,
      Double.ofRat_eval_tie _ 0 8106479329266892 (by norm_num) (by norm_num [abs_of_pos])
        (by norm_num [abs_of_pos]) (by norm_num) (by norm_num [abs_of_pos])]
    norm_num
  refine ⟨hlen, ?_, ?_, ?_, ?_⟩
  · rw [hlen, hrad]
  · simp only [offsetBoxScene, dvec3_add_mk, dvec3_mul_mk, Double.finite_add_finite,
      Double.literals.1]
    norm_num [Double.finite_mul_finite, i1, i2, im, ic, ih]
  · rw [Double.literals.2.2.2.2.1, Double.finite_mul_finite,
      Double.ofRat_eval_tie _ 2 7093169413108530 (by norm_num) (by norm_num [abs_of_pos])
        (by norm_num [abs_of_pos]) (by norm_num) (by norm_num [abs_of_pos])]
    norm_num
  · rw [Double.ofRat_eval _ 19 8589889065346662 (by norm_num) (by norm_num [abs_of_pos])
        (by norm_num [abs_of_pos]) (by rw [abs_lt]; constructor <;> norm_num)
        (by norm_num [abs_of_pos])]
    norm_num

/-- The `y` offset of the eye: `-radius * 3.5`, with `radius * 3.5` known. -/
theorem neg_radius_mul (r d : ℚ) (hd : Double.finite r * (3.5 : Double) = Double.finite d) :
    -(Double.finite r) * (3.5 : Double) = Double.finite (-d) := by
  rw [Double.literals.2.2.2.2.1] at hd ⊢
  rw [Double.finite_mul_finite] at hd
  rw [Double.neg_finite, Double.finite_mul_finite, neg_mul, Double.ofRat_neg, hd,
    Double.neg_finite]

/-- Adding `0.0` to a coordinate of the centre changes nothing. -/
theorem centre_add_zero (x : Double) (c : ℚ) (h : x * (0.5 : Double) = Double.finite c) :
    Double.finite c + (0.0 : Double) = Double.finite c := by
  rw [← h]
  exact Double.mul_half_add_zero x

/-- The eye `addView` computes from a finite centre and the product `radius * 3.5`. -/
theorem eye_of_centre (vsg_scene : vsg.Node Double) (cx cy cz r d : ℚ)
    (hcentre : (vsg_scene.bounds.min + vsg_scene.bounds.max) * (0.5 : Double)
      = vsg.dvec3.mk (Double.finite cx) (Double.finite cy) (Double.finite cz))
    (hradius : vsg.length Double.sqrt (vsg_scene.bounds.max - vsg_scene.bounds.min)
      * (0.6 : Double) = Double.finite r)
    (hd : Double.finite r * (3.5 : Double) = Double.finite d) :
    (vsg_scene.bounds.min + vsg_scene.bounds.max) * (0.5 : Double) +
        vsg.dvec3.mk (0.0 : Double)
          (-(vsg.length Double.sqrt (vsg_scene.bounds.max - vsg_scene.bounds.min) * 0.6) * 3.5)
          0.0
      = vsg.dvec3.mk (Double.finite cx) (Double.ofRat (cy - d)) (Double.finite cz) := by
  have hx : (vsg_scene.bounds.min.x + vsg_scene.bounds.max.x) * (0.5 : Double)
      = Double.finite cx := congrArg vsg.dvec3.x hcentre
  have hz : (vsg_scene.bounds.min.z + vsg_scene.bounds.max.z) * (0.5 : Double)
      = Double.finite cz := congrArg vsg.dvec3.z hcentre
  rw [hcentre, hradius, neg_radius_mul r d hd, dvec3_add_mk, centre_add_zero _ cx hx,
    centre_add_zero _ cz hz, Double.finite_add_finite, ← sub_eq_add_neg]

/-- Claim C14, as stated, fails in its last part. For the bounds `(0, 1000000, 0)` to
`(1, 1000002, 2)` the radius is the `double` 1.7999999999999998, the centre is
`(0.5, 1000001, 1)` and the eye is `(0.5, 999994.7 (rounded), 1)`: eye and centre differ in
`y` only, by 6.3000000000465661, which is neither 3.5 times the radius nor the `double`
product `radius * 3.5` (both 6.2999999999999989). -/
theorem addView_eye_distance_inexact :
    ∃ (camera : vsg.Camera Double) (window : Engine.Window),
      (MultiViewArea.addView Double.sqrt doubleArea 1 (some 7) offsetBoxScene
          "First Window").1.viewer.recordAndSubmitTasks
        = doubleArea.viewer.recordAndSubmitTasks ++
          [[{ window := window, camera := camera, scene := offsetBoxScene }]] ∧
      vsg.length Double.sqrt (offsetBoxScene.bounds.max - offsetBoxScene.bounds.min)
          * (0.6 : Double) = Double.finite (2026619832316723 / 2 ^ 50) ∧
      Double.finite (2026619832316723 / 2 ^ 50) * (3.5 : Double)
        = Double.finite (3546584706554265 / 2 ^ 49) ∧
      camera.viewMatrix.center
        = vsg.dvec3.mk (Double.finite (1 / 2)) (Double.finite 1000001) (Double.finite 1) ∧
      camera.viewMatrix.eye
        = vsg.dvec3.mk (Double.finite (1 / 2)) (Double.finite (4294944532673331 / 2 ^ 32))
            (Double.finite 1) ∧
      (1000001 : ℚ) - 4294944532673331 / 2 ^ 32 = 27058293965 / 2 ^ 32 ∧
      (1000001 : ℚ) - 4294944532673331 / 2 ^ 32 ≠ 3.5 * (2026619832316723 / 2 ^ 50) ∧
      (1000001 : ℚ) - 4294944532673331 / 2 ^ 32 ≠ 3546584706554265 / 2 ^ 49 := by
  obtain ⟨camera, window, -, hview, -, -, -, htasks⟩ :=
    addView_viewer Double.sqrt doubleArea 1 (some 7) offsetBoxScene "First Window"
  obtain ⟨-, hrad, hcentre, hd, hey⟩ := offsetBoxScene_values
  refine ⟨camera, window, htasks, hrad, hd, ?_, ?_, by norm_num, by norm_num, by norm_num⟩
  · rw [hview]
    exact hcentre
  · rw [hview]
    simp only
    rw [eye_of_centre offsetBoxScene _ _ _ _ _ hcentre hrad hd, hey]

/-- Claim C14, amended: camera placement in `addView`, for every scene bounds `(min, max)`,
in the `double` arithmetic of the source. The view centre is `(min + max) × 0.5`, the view
radius is the Euclidean length of `max - min` (the square root of the sum of the squared
coordinates) `× 0.6`, the eye is centre + `(0, -radius × 3.5, 0)`, the look-at point is the
centre and the up vector is `(0, 0, 1)`, each operation rounded to `double`. When the centre
`(cx, cy, cz)` and the product `d = radius × 3.5` are finite, the eye is
`(cx, cy - d rounded, cz)`: it lies straight below the centre in `y`, `d` is 3.5 × radius up
to one rounding, and the distance of a finite eye from the centre is `d` up to the rounding
of `cy - d`, not exactly `d`. -/
theorem addView_camera_placement (self : MultiViewArea Double) (newWindow : Nat)
    (created : Option vsg.Device) (vsg_scene : vsg.Node Double) (title : String)
    (cx cy cz r d : ℚ)
    (hcentre : (vsg_scene.bounds.min + vsg_scene.bounds.max) * (0.5 : Double)
      = vsg.dvec3.mk (Double.finite cx) (Double.finite cy) (Double.finite cz))
    (hradius : vsg.length Double.sqrt (vsg_scene.bounds.max - vsg_scene.bounds.min)
      * (0.6 : Double) = Double.finite r)
    (hd : Double.finite r * (3.5 : Double) = Double.finite d) :
    ∃ (camera : vsg.Camera Double) (window : Engine.Window),
      (MultiViewArea.addView Double.sqrt self newWindow created vsg_scene
          title).1.viewer.recordAndSubmitTasks
        = self.viewer.recordAndSubmitTasks ++
          [[{ window := window, camera := camera, scene := vsg_scene }]] ∧
      camera.viewMatrix.center
        = (vsg_scene.bounds.min + vsg_scene.bounds.max) * (0.5 : Double) ∧
      vsg.length Double.sqrt (vsg_scene.bounds.max - vsg_scene.bounds.min)
        = Double.sqrt
            ((vsg_scene.bounds.max.x - vsg_scene.bounds.min.x) *
                (vsg_scene.bounds.max.x - vsg_scene.bounds.min.x) +
              (vsg_scene.bounds.max.y - vsg_scene.bounds.min.y) *
                (vsg_scene.bounds.max.y - vsg_scene.bounds.min.y) +
              (vsg_scene.bounds.max.z - vsg_scene.bounds.min.z) *
                (vsg_scene.bounds.max.z - vsg_scene.bounds.min.z)) ∧
      camera.viewMatrix.eye
        = camera.viewMatrix.center +
          vsg.dvec3.mk (0.0 : Double)
            (-(vsg.length Double.sqrt (vsg_scene.bounds.max - vsg_scene.bounds.min) * 0.6)
              * 3.5)
            0.0 ∧
      camera.viewMatrix.up = vsg.dvec3.mk (0.0 : Double) 0.0 1.0 ∧
      camera.viewMatrix.up
        = vsg.dvec3.mk (Double.finite 0) (Double.finite 0) (Double.finite 1) ∧
      camera.viewMatrix.eye
        = vsg.dvec3.mk (Double.finite cx) (Double.ofRat (cy - d)) (Double.finite cz) ∧
      |d - 3.5 * r| ≤ 2 ^ (-53 : ℤ) * |3.5 * r| + 2 ^ (-1075 : ℤ) ∧
      ∀ ey : ℚ, camera.viewMatrix.eye.y = Double.finite ey →
        |(cy - ey) - d| ≤ 2 ^ (-53 : ℤ) * |cy - d| + 2 ^ (-1075 : ℤ) := by
  obtain ⟨camera, window, -, hview, -, -, -, htasks⟩ :=
    addView_viewer Double.sqrt self newWindow created vsg_scene title
  have heye : camera.viewMatrix.eye
      = vsg.dvec3.mk (Double.finite cx) (Double.ofRat (cy - d)) (Double.finite cz) := by
    rw [hview]
    exact eye_of_centre vsg_scene cx cy cz r d hcentre hradius hd
  refine ⟨camera, window, htasks, ?_, rfl, ?_, ?_, ?_, heye, ?_, ?_⟩
  · rw [hview]
  · rw [hview]
  · rw [hview]
  · rw [hview]
    simp only [Double.literals.2.2.2.1, Double.literals.2.2.2.2.2.2]
  · rw [Double.literals.2.2.2.2.1, Double.finite_mul_finite] at hd
    have h := Double.ofRat_error _ d hd
    have e : r * (7 / 2) = 3.5 * r := by norm_num; ring
    rw [e] at h
    exact h
  · intro ey hey
    rw [heye] at hey
    have h := Double.ofRat_error _ ey hey
    have e : cy - ey - d = -(ey - (cy - d)) := by ring
    rw [e, abs_neg]
    exact h

theorem addView_camera_placement_witness :
    ((offsetBoxScene.bounds.min + offsetBoxScene.bounds.max) * (0.5 : Double)
        = vsg.dvec3.mk (Double.finite (1 / 2)) (Double.finite 1000001) (Double.finite 1) ∧
      vsg.length Double.sqrt (offsetBoxScene.bounds.max - offsetBoxScene.bounds.min)
          * (0.6 : Double) = Double.finite (2026619832316723 / 2 ^ 50) ∧
      Double.finite (2026619832316723 / 2 ^ 50) * (3.5 : Double)
        = Double.finite (3546584706554265 / 2 ^ 49)) ∧
    ∃ (camera : vsg.Camera Double) (window : Engine.Window),
      (MultiViewArea.addView Double.sqrt doubleArea 1 (some 7) offsetBoxScene
          "First Window").1.viewer.recordAndSubmitTasks
        = doubleArea.viewer.recordAndSubmitTasks ++
          [[{ window := window, camera := camera, scene := offsetBoxScene }]] ∧
      camera.viewMatrix.center
        = (offsetBoxScene.bounds.min + offsetBoxScene.bounds.max) * (0.5 : Double) ∧
      camera.viewMatrix.up
        = vsg.dvec3.mk (Double.finite 0) (Double.finite 0) (Double.finite 1) ∧
      camera.viewMatrix.eye
        = vsg.dvec3.mk (Double.finite (1 / 2))
            (Double.ofRat (1000001 - 3546584706554265 / 2 ^ 49)) (Double.finite 1) := by
  obtain ⟨-, hrad, hcentre, hd, -⟩ := offsetBoxScene_values
  obtain ⟨camera, window, htasks, hcen, -, -, -, hup, heye, -, -⟩ :=
    addView_camera_placement doubleArea 1 (some 7) offsetBoxScene "First Window"
      (1 / 2) 1000001 1 (2026619832316723 / 2 ^ 50) (3546584706554265 / 2 ^ 49)
      hcentre hrad hd
  exact ⟨⟨hcentre, hrad, hd⟩, camera, window, htasks, hcen, hup, heye⟩

end Main

namespace Double

end Double

namespace Main

end Main
